import Mathlib

/-!
# Verification of the timeout multiplexer and portal registry

A shallow embedding, in Lean 4, of two subsystems of the Arenadata-Labs/gpdb
backend:

* `src/backend/utils/misc/timeout.c` — the SIGALRM timeout multiplexer
  (timeout reasons, the active deadline queue, the dispatch loop of the
  signal handler, and the public enable/disable API);
* `src/backend/utils/mmgr/portalmem.c` — the portal registry (portal
  lifecycle transitions, `PortalDrop`, and the transaction hooks).

Machine state that the C code keeps in globals (`all_timeouts`,
`active_timeouts`, `num_active_timeouts`, `alarm_enabled`, the portal hash
table) is made explicit as Lean structures that every operation threads
through.  Calls into external subsystems (handlers, resource owners, memory
contexts, the tuple store, `PersistHoldablePortal`) are recorded as events in
a trace, since the registry's own state does not observe their effects.
`elog` / `ereport` exits are modelled with `Option` / explicit error fields:
`none` (or an error value) is an `elog(FATAL)` / `ereport(ERROR)` that keeps
the function from returning normally.  `Assert`s are omitted: they are
compiled out of production builds and the mainline code never relies on them.

`TimestampTz` is a 64-bit microsecond count in the C code; deadlines stay far
from the 64-bit boundary in every use, so it is embedded as `Int` without a
wrap-around.
-/

namespace GPDB

/-! ## Timeout multiplexer: data model (timeout.c) -/

/-- Modelled from the spec: the boundaries of the `TimeoutId` enum live in
`utils/timeout.h`, which is not part of the sources here.  The spec fixes
only the shape: a contiguous low range of predefined reasons, then the user
range starting at the sentinel `USER_TIMEOUT`, then a small reserved tail
(`GP_PARALLEL_RETRIEVE_CURSOR_CHECK_TIMEOUT` among it) before `MAX_TIMEOUTS`.
Concrete small values are chosen; no theorem depends on the exact numbers,
only on `USER_TIMEOUT ≤ GP_PARALLEL_RETRIEVE_CURSOR_CHECK_TIMEOUT ≤
MAX_TIMEOUTS`. -/
def USER_TIMEOUT : Nat := 11

/-- Modelled from the spec: first reserved id after the user range
(see `USER_TIMEOUT`). -/
def GP_PARALLEL_RETRIEVE_CURSOR_CHECK_TIMEOUT : Nat := 15

/-- Modelled from the spec: total number of timeout reason slots
(see `USER_TIMEOUT`). -/
def MAX_TIMEOUTS : Nat := 16

/-- `struct timeout_params`: data about any one timeout reason.  The handler
is opaque to the multiplexer; it is embedded as an identifying `Nat`
(`none` = `NULL`, i.e. the reason is not registered). -/
structure timeout_params where
  index : Nat
  active : Bool
  indicator : Bool
  timeout_handler : Option Nat
  start_time : Int
  fin_time : Int
deriving Repr, DecidableEq

/-- The multiplexer's process-global state: `all_timeouts[]` (total over ids;
the C array has `MAX_TIMEOUTS` slots and is only ever indexed below that),
the active list `active_timeouts[]` of length `num_active_timeouts`
represented as the list of ids of its entries (an entry of the C array is a
pointer `&all_timeouts[id]`, so the id determines it), and `alarm_enabled`. -/
structure TimeoutState where
  all_timeouts : Nat → timeout_params
  active_queue : List Nat
  alarm_enabled : Bool

/-- Pointwise update of the `all_timeouts` array at one id. -/
def upd (f : Nat → timeout_params) (i : Nat) (v : timeout_params) : Nat → timeout_params :=
  fun j => if j = i then v else f j

@[simp] theorem upd_same (f : Nat → timeout_params) (i : Nat) (v : timeout_params) :
    upd f i v i = v := by simp [upd]

@[simp] theorem upd_ne (f : Nat → timeout_params) (i : Nat) (v : timeout_params)
    (j : Nat) (h : j ≠ i) : upd f i v j = f j := by simp [upd, h]

/-! ## Timeout multiplexer: internal helpers -/

/-- `find_active_timeout`: index of a given timeout reason in the active
array, `none` for the C code's `-1` when it is not there. -/
def findActiveAux (all : Nat → timeout_params) (id : Nat) : List Nat → Option Nat
  | [] => none
  | j :: rest =>
    if (all j).index = id then some 0
    else (findActiveAux all id rest).map (· + 1)

def find_active_timeout (st : TimeoutState) (id : Nat) : Option Nat :=
  findActiveAux st.all_timeouts id st.active_queue

/-- `insert_timeout`: insert reason `id` into the active list at position
`index`; sets the reason's `active` flag.  `none` is the
`elog(FATAL, "timeout index %d out of range")` exit. -/
def insert_timeout (st : TimeoutState) (id : Nat) (index : Nat) : Option TimeoutState :=
  if index > st.active_queue.length then none
  else
    some { st with
      all_timeouts := upd st.all_timeouts id { st.all_timeouts id with active := true }
      active_queue := st.active_queue.insertIdx index id }

/-- `remove_timeout_index`: remove the `index`'th element from the active
list, clearing its `active` flag.  `none` is the out-of-range
`elog(FATAL)` exit (also taken, via index `-1`, when `find_active_timeout`
found nothing). -/
def remove_timeout_index (st : TimeoutState) (index : Nat) : Option TimeoutState :=
  match st.active_queue[index]? with
  | none => none
  | some j =>
    some { st with
      all_timeouts := upd st.all_timeouts j { st.all_timeouts j with active := false }
      active_queue := st.active_queue.eraseIdx index }

/-- The insertion-point loop of `enable_timeout`: the first index whose entry
has a strictly larger `(fin_time, priority)` key (the two `break`s of the C
loop: `fin_time < old->fin_time`, or equal `fin_time` and `id <
old->index`). -/
def insPosAux (all : Nat → timeout_params) (fin_time : Int) (id : Nat) : List Nat → Nat
  | [] => 0
  | j :: rest =>
    if fin_time < (all j).fin_time ∨ (fin_time = (all j).fin_time ∧ id < (all j).index) then 0
    else insPosAux all fin_time id rest + 1

/-- The statement `if (all_timeouts[id].active)
remove_timeout_index(find_active_timeout(id))` that `enable_timeout`,
`disable_timeout` and `disable_timeouts` each contain verbatim.  A failed
find passes the C code's `-1` to `remove_timeout_index`, which is its
out-of-range `elog(FATAL)`. -/
def remove_if_active (st : TimeoutState) (id : Nat) : Option TimeoutState :=
  if (st.all_timeouts id).active then
    match find_active_timeout st id with
    | none => none
    | some k => remove_timeout_index st k
  else some st

/-- `enable_timeout`: enable the specified timeout reason, rescheduling it
if it was already active. -/
def enable_timeout (st : TimeoutState) (id : Nat) (now fin_time : Int) : Option TimeoutState :=
  match remove_if_active st id with
  | none => none
  | some st1 =>
    let i := insPosAux st1.all_timeouts fin_time id st1.active_queue
    let st2 := { st1 with
      all_timeouts := upd st1.all_timeouts id
        { st1.all_timeouts id with indicator := false, start_time := now, fin_time := fin_time } }
    insert_timeout st2 id i

/-- `schedule_alarm`: arm the OS one-shot timer for the queue head, enabling
the signal handler first.  The `setitimer` call itself touches only the OS;
the multiplexer state change is `enable_alarm()` (when the queue is
non-empty).  A failing `setitimer` is `elog(FATAL)`; the model assumes the
host call succeeds, as every execution of interest does. -/
def schedule_alarm (st : TimeoutState) (_now : Int) : TimeoutState :=
  if st.active_queue.length > 0 then { st with alarm_enabled := true } else st

/-! ## Timeout multiplexer: public API -/

/-- `InitializeTimeouts`: reset all reason slots, empty the active list,
leave the alarm disabled.  (The C code also installs the SIGALRM handler;
that is host state.)  The C loop initializes the `MAX_TIMEOUTS` array slots;
the embedding's total function initializes every id the same way. -/
def InitializeTimeouts : TimeoutState where
  all_timeouts := fun i =>
    { index := i, active := false, indicator := false
      timeout_handler := none, start_time := 0, fin_time := 0 }
  active_queue := []
  alarm_enabled := false

/-- Error levels of `elog`/`ereport` exits that reach the caller.  `ERROR`
aborts the current operation and is caught by the error recovery of the
caller's transaction; `FATAL` terminates the whole backend process. -/
inductive elevel
  | ERROR
  | FATAL
deriving Repr, DecidableEq

/-- The SQLSTATE error codes raised by the embedded functions (plus
`internal_error` for bare `elog(ERROR)` calls, which carry no explicit
code). -/
inductive sqlstate
  | configuration_limit_exceeded
  | invalid_cursor_state
  | feature_not_supported
  | internal_error
deriving Repr, DecidableEq

structure PGError where
  level : elevel
  code : sqlstate
deriving Repr, DecidableEq

/-- `RegisterTimeout`: register a timeout reason.  An id inside the user
range (its low end `USER_TIMEOUT` is the sentinel callers pass) allocates
the smallest user id whose handler slot is still `NULL`; exhaustion is
`ereport(FATAL, ERRCODE_CONFIGURATION_LIMIT_EXCEEDED, "cannot add more
timeout reasons")`.  Returns the (possibly unchanged) state together with
the allocated id or the error. -/
def RegisterTimeout (st : TimeoutState) (id : Nat) (handler : Nat) :
    TimeoutState × Except PGError Nat :=
  if USER_TIMEOUT ≤ id ∧ id < GP_PARALLEL_RETRIEVE_CURSOR_CHECK_TIMEOUT then
    match (List.range' USER_TIMEOUT (GP_PARALLEL_RETRIEVE_CURSOR_CHECK_TIMEOUT - USER_TIMEOUT)).find?
        (fun j => (st.all_timeouts j).timeout_handler.isNone) with
    | none => (st, .error ⟨.FATAL, .configuration_limit_exceeded⟩)
    | some j =>
      ({ st with
          all_timeouts := upd st.all_timeouts j
            { st.all_timeouts j with timeout_handler := some handler } },
        .ok j)
  else
    ({ st with
        all_timeouts := upd st.all_timeouts id
          { st.all_timeouts id with timeout_handler := some handler } },
      .ok id)

/-- `TimestampTzPlusMilliseconds(tz, ms)`: `(tz) + (ms) * 1000` on
microsecond timestamps. -/
def TimestampTzPlusMilliseconds (tz : Int) (ms : Int) : Int := tz + ms * 1000

/-- `enable_timeout_after`: enable the timeout to fire `delay_ms`
milliseconds after `now` (the `GetCurrentTimestamp()` reading, passed in as
the clock is host state). -/
def enable_timeout_after (st : TimeoutState) (id : Nat) (delay_ms : Int) (now : Int) :
    Option TimeoutState :=
  let st0 := { st with alarm_enabled := false }
  let fin_time := TimestampTzPlusMilliseconds now delay_ms
  match enable_timeout st0 id now fin_time with
  | none => none
  | some st1 => some (schedule_alarm st1 now)

/-- `enable_timeout_at`: enable the timeout to fire at `fin_time`. -/
def enable_timeout_at (st : TimeoutState) (id : Nat) (fin_time : Int) (now : Int) :
    Option TimeoutState :=
  let st0 := { st with alarm_enabled := false }
  match enable_timeout st0 id now fin_time with
  | none => none
  | some st1 => some (schedule_alarm st1 now)

/-- The `TimeoutType` tags of `EnableTimeoutParams`.  The C `switch` has a
`default:` arm, `elog(ERROR, "unrecognized timeout type")`, unreachable here
because the embedded tag type has exactly the two declared values. -/
inductive TimeoutType
  | TMPARAM_AFTER
  | TMPARAM_AT
deriving Repr, DecidableEq

structure EnableTimeoutParams where
  id : Nat
  type : TimeoutType
  delay_ms : Int
  fin_time : Int
deriving Repr, DecidableEq

/-- The loop body of `enable_timeouts` over the request array. -/
def enableTimeoutsLoop (now : Int) :
    TimeoutState → List EnableTimeoutParams → Option TimeoutState
  | st, [] => some st
  | st, t :: rest =>
    match t.type with
    | .TMPARAM_AFTER =>
      match enable_timeout st t.id now (TimestampTzPlusMilliseconds now t.delay_ms) with
      | none => none
      | some st' => enableTimeoutsLoop now st' rest
    | .TMPARAM_AT =>
      match enable_timeout st t.id now t.fin_time with
      | none => none
      | some st' => enableTimeoutsLoop now st' rest

/-- `enable_timeouts`: enable multiple timeouts under a single clock reading
and a single timer re-arm. -/
def enable_timeouts (st : TimeoutState) (timeouts : List EnableTimeoutParams) (now : Int) :
    Option TimeoutState :=
  let st0 := { st with alarm_enabled := false }
  match enableTimeoutsLoop now st0 timeouts with
  | none => none
  | some st1 => some (schedule_alarm st1 now)

/-- `disable_timeout`: cancel the specified timeout; reset its fired
indicator unless `keep_indicator`. -/
def disable_timeout (st : TimeoutState) (id : Nat) (keep_indicator : Bool) (now : Int) :
    Option TimeoutState :=
  let st0 := { st with alarm_enabled := false }
  match remove_if_active st0 id with
  | none => none
  | some st1 =>
    let st2 :=
      if keep_indicator then st1
      else { st1 with
        all_timeouts := upd st1.all_timeouts id
          { st1.all_timeouts id with indicator := false } }
    some (if st2.active_queue.length > 0 then schedule_alarm st2 now else st2)

structure DisableTimeoutParams where
  id : Nat
  keep_indicator : Bool
deriving Repr, DecidableEq

/-- The loop body of `disable_timeouts` over the request array. -/
def disableTimeoutsLoop :
    TimeoutState → List DisableTimeoutParams → Option TimeoutState
  | st, [] => some st
  | st, t :: rest =>
    match remove_if_active st t.id with
    | none => none
    | some st1 =>
      let st2 :=
        if t.keep_indicator then st1
        else { st1 with
          all_timeouts := upd st1.all_timeouts t.id
            { st1.all_timeouts t.id with indicator := false } }
      disableTimeoutsLoop st2 rest

/-- `disable_timeouts`: cancel multiple timeouts at once. -/
def disable_timeouts (st : TimeoutState) (timeouts : List DisableTimeoutParams) (now : Int) :
    Option TimeoutState :=
  let st0 := { st with alarm_enabled := false }
  match disableTimeoutsLoop st0 timeouts with
  | none => none
  | some st1 =>
    some (if st1.active_queue.length > 0 then schedule_alarm st1 now else st1)

/-- `disable_all_timeouts`: disable SIGALRM, empty the active list, clear all
`active` flags (the C loop runs over the `MAX_TIMEOUTS` slots), and reset
the indicators unless `keep_indicators`. -/
def disable_all_timeouts (st : TimeoutState) (keep_indicators : Bool) : TimeoutState where
  all_timeouts := fun i =>
    if i < MAX_TIMEOUTS then
      { st.all_timeouts i with
        active := false
        indicator := keep_indicators && (st.all_timeouts i).indicator }
    else st.all_timeouts i
  active_queue := []
  alarm_enabled := false

/-- `get_timeout_active`. -/
def get_timeout_active (st : TimeoutState) (id : Nat) : Bool :=
  (st.all_timeouts id).active

/-- `get_timeout_indicator`: return the fired indicator; when
`reset_indicator`, clear it, but only on a `true` return. -/
def get_timeout_indicator (st : TimeoutState) (id : Nat) (reset_indicator : Bool) :
    Bool × TimeoutState :=
  if (st.all_timeouts id).indicator then
    (true,
     if reset_indicator then
       { st with
         all_timeouts := upd st.all_timeouts id
           { st.all_timeouts id with indicator := false } }
     else st)
  else (false, st)

/-- `get_timeout_start_time`. -/
def get_timeout_start_time (st : TimeoutState) (id : Nat) : Int :=
  (st.all_timeouts id).start_time

/-- `get_timeout_finish_time`. -/
def get_timeout_finish_time (st : TimeoutState) (id : Nat) : Int :=
  (st.all_timeouts id).fin_time

/-! ## Timeout multiplexer: the signal handler (handle_sig_alarm) -/

/-- The firing loop of `handle_sig_alarm`: while the queue head's `fin_time`
has been reached, `remove_timeout_index(0)` (pop the head, clear its
`active`), set its `indicator`, and call its handler — recorded as the fired
id in the returned trace.  The handler may take time, so `now` is re-read
after each call: `nows` supplies the successive `GetCurrentTimestamp()`
readings (when exhausted the clock reading stays put).  Returns the updated
reason array, the remaining queue, the firing trace in order, and the final
clock reading. -/
def dispatchLoop (all : Nat → timeout_params) :
    List Nat → Int → List Int → (Nat → timeout_params) × List Nat × List Nat × Int
  | [], now, _ => (all, [], [], now)
  | j :: rest, now, nows =>
    if (all j).fin_time ≤ now then
      let all1 := upd all j { all j with active := false, indicator := true }
      let step : Int × List Int :=
        match nows with
        | [] => (now, [])
        | t :: ts => (t, ts)
      let r := dispatchLoop all1 rest step.1 step.2
      (r.1, r.2.1, j :: r.2.2.1, r.2.2.2)
    else (all, j :: rest, [], now)

/-- `handle_sig_alarm`: the SIGALRM entry point.  The latch wake-up and the
interrupt-holdoff bookkeeping touch only host state.  If `alarm_enabled`,
disable it, fire all due timeouts, and re-arm via `schedule_alarm`.
Returns the new state and the trace of fired ids. -/
def handle_sig_alarm (st : TimeoutState) (now : Int) (nows : List Int) :
    TimeoutState × List Nat :=
  if st.alarm_enabled then
    let st1 := { st with alarm_enabled := false }
    if st1.active_queue.length > 0 then
      let r := dispatchLoop st1.all_timeouts st1.active_queue now nows
      let st2 : TimeoutState :=
        { all_timeouts := r.1, active_queue := r.2.1, alarm_enabled := false }
      (schedule_alarm st2 r.2.2.2, r.2.2.1)
    else (st1, [])
  else (st, [])

/-! ## Timeout multiplexer: the queue invariant -/

/-- The sort key of an active-queue entry: `(fin_time, id)`. -/
def qkey (all : Nat → timeout_params) (j : Nat) : Int × Nat :=
  ((all j).fin_time, j)

/-- Strict lexicographic order on `(fin_time, id)` keys. -/
def keyLT (a b : Int × Nat) : Prop :=
  a.1 < b.1 ∨ (a.1 = b.1 ∧ a.2 < b.2)

instance (a b : Int × Nat) : Decidable (keyLT a b) := by
  unfold keyLT; infer_instance

/-- The multiplexer's state invariant: slot `i` records its own index; queue
entries are real slots; a reason is `active` iff its id occupies exactly one
queue slot; and the queue is strictly sorted by `(fin_time, id)`. -/
def QueueWF (st : TimeoutState) : Prop :=
  (∀ i, i < MAX_TIMEOUTS → (st.all_timeouts i).index = i) ∧
  (∀ j ∈ st.active_queue, j < MAX_TIMEOUTS) ∧
  (∀ i, i < MAX_TIMEOUTS →
    ((st.all_timeouts i).active = true ↔ st.active_queue.count i = 1)) ∧
  st.active_queue.Pairwise (fun a b => keyLT (qkey st.all_timeouts a) (qkey st.all_timeouts b))

instance (st : TimeoutState) : Decidable (QueueWF st) := by
  unfold QueueWF; infer_instance

/-- The five public queue-mutating operations claim (T1) ranges over. -/
inductive TimeoutOp
  | opEnableAfter (id : Nat) (delay_ms : Int)
  | opEnableAt (id : Nat) (fin_time : Int)
  | opEnableBatch (timeouts : List EnableTimeoutParams)
  | opDisable (id : Nat) (keep_indicator : Bool)
  | opDisableBatch (timeouts : List DisableTimeoutParams)

def runTimeoutOp (op : TimeoutOp) (st : TimeoutState) (now : Int) : Option TimeoutState :=
  match op with
  | .opEnableAfter id d => enable_timeout_after st id d now
  | .opEnableAt id f => enable_timeout_at st id f now
  | .opEnableBatch ps => enable_timeouts st ps now
  | .opDisable id k => disable_timeout st id k now
  | .opDisableBatch ps => disable_timeouts st ps now

/-- Every id an operation enables is a real `TimeoutId` (the C type is the
enum, so this holds for every well-typed caller). -/
def TimeoutOpValid : TimeoutOp → Prop
  | .opEnableAfter id _ => id < MAX_TIMEOUTS
  | .opEnableAt id _ => id < MAX_TIMEOUTS
  | .opEnableBatch ps => ∀ p ∈ ps, p.id < MAX_TIMEOUTS
  | .opDisable _ _ => True
  | .opDisableBatch _ => True

instance : ∀ op : TimeoutOp, Decidable (TimeoutOpValid op)
  | .opEnableAfter id _ => inferInstanceAs (Decidable (id < MAX_TIMEOUTS))
  | .opEnableAt id _ => inferInstanceAs (Decidable (id < MAX_TIMEOUTS))
  | .opEnableBatch ps => inferInstanceAs (Decidable (∀ p ∈ ps, p.id < MAX_TIMEOUTS))
  | .opDisable _ _ => inferInstanceAs (Decidable True)
  | .opDisableBatch _ => inferInstanceAs (Decidable True)

/-- A sequence of public queue operations, each under its own
`GetCurrentTimestamp()` reading; stops at the first FATAL exit. -/
def runTimeoutOps : List (TimeoutOp × Int) → TimeoutState → Option TimeoutState
  | [], st => some st
  | (op, now) :: rest, st =>
    match runTimeoutOp op st now with
    | none => none
    | some st1 => runTimeoutOps rest st1

/-- A state whose user range is fully registered (for the register-
exhaustion claim). -/
def regSaturated : TimeoutState where
  all_timeouts := fun i =>
    { index := i, active := false, indicator := false
      timeout_handler := some 0, start_time := 0, fin_time := 0 }
  active_queue := []
  alarm_enabled := false

/-- A state with reasons 1 and 2 armed for the same deadline (witness
state). -/
def wstateTwoDue : TimeoutState where
  all_timeouts := fun i =>
    { index := i, active := i = 1 || i = 2, indicator := false
      timeout_handler := some 0, start_time := 0
      fin_time := if i = 1 || i = 2 then 50 else 0 }
  active_queue := [1, 2]
  alarm_enabled := true

/-- A state with reason 1's fired indicator set (witness state). -/
def wstateInd : TimeoutState where
  all_timeouts := fun i =>
    { index := i, active := false, indicator := i = 1
      timeout_handler := some 0, start_time := 2, fin_time := 3 }
  active_queue := []
  alarm_enabled := false

/-! ## Portal registry: data model (portalmem.c)

A `Portal` carries the fields of `PortalData` that portalmem.c itself reads
or writes.  Opaque references held for external subsystems (`stmts`,
`cplan`, `resowner`) are embedded as identifying numbers; the memory
contexts and the hold tuple store appear only as presence flags, since the
registry observes nothing else about them.  Calls out of the registry
(cleanup hooks, `PersistHoldablePortal`, `ResourceOwnerRelease`, …) emit
`PEvent`s.  The hash table is an association list in its iteration order
(the order of `hash_seq_search` is unspecified). -/

/-- `PortalStatus` (portal.h, declarations only; values as in the source's
state machine). -/
inductive PortalStatus
  | PORTAL_NEW
  | PORTAL_DEFINED
  | PORTAL_READY
  | PORTAL_ACTIVE
  | PORTAL_DONE
  | PORTAL_FAILED
deriving Repr, DecidableEq

/-- Modelled from the spec: the `CURSOR_OPT_HOLD` bit of `cursorOptions`
lives in the header `parsenodes.h`, not in the sources here; the spec only
requires a dedicated bit in the options bitset. -/
def CURSOR_OPT_HOLD : Nat := 16

/-- Modelled from the spec: the *invalid* subtransaction-id sentinel
(`InvalidSubTransactionId`); live subtransaction ids are distinct from
it. -/
def InvalidSubTransactionId : Nat := 0

structure Portal where
  status : PortalStatus
  cursorOptions : Nat
  portalPinned : Bool
  createSubid : Nat
  activeSubid : Nat
  stmts : List Nat
  cplan : Option Nat
  resowner : Option Nat
  cleanup : Bool
  holdStore : Bool
  holdContext : Bool
  resQueueLocked : Bool
  is_extended_query : Bool
  queryDesc : Bool
deriving Repr, DecidableEq

/-- The portal hash table: entries `(portalname, portal)` in iteration
order. -/
abbrev PortalTable := List (String × Portal)

/-- `ResourceReleasePhase` of the external resource-owner service. -/
inductive ResourceReleasePhase
  | RESOURCE_RELEASE_BEFORE_LOCKS
  | RESOURCE_RELEASE_LOCKS
  | RESOURCE_RELEASE_AFTER_LOCKS
deriving Repr, DecidableEq

/-- The calls the registry makes into external subsystems, in program
order. -/
inductive PEvent
  | cleanupCalled (name : String)
  | persistCalled (name : String)
  | planReleased (plan : Nat)
  | resourceRelease (owner : Nat) (phase : ResourceReleasePhase) (isCommit : Bool)
  | resourceDelete (owner : Nat)
  | resourceNewParent (owner : Nat) (newParent : Nat)
  | resUnlockPortal (name : String)
  | tuplestoreEnd (name : String)
  | holdContextDeleted (name : String)
  | heapDeleted (name : String)
  | heapChildrenDeleted (name : String)
  | warnSkippedCleanup (name : String)
  | cancelUnfinishedSet (name : String)
deriving Repr, DecidableEq

/-! ## Portal registry: operations -/

/-- The statement `if (PointerIsValid(portal->cleanup)) { (*portal->cleanup)
(portal); portal->cleanup = NULL; }` that `MarkPortalDone`,
`MarkPortalFailed`, `PortalDrop`, `AtAbort_Portals` and `AtSubAbort_Portals`
each contain verbatim. -/
def fireCleanup (n : String) (p : Portal) : Portal × List PEvent :=
  if p.cleanup then ({ p with cleanup := false }, [PEvent.cleanupCalled n])
  else (p, [])

/-- `PortalReleaseCachedPlan`: release the portal's reference to its cached
plan if any, also clearing `stmts` (which would dangle into the released
plan's list). -/
def PortalReleaseCachedPlan (p : Portal) : Portal × List PEvent :=
  match p.cplan with
  | some c => ({ p with cplan := none, stmts := [] }, [PEvent.planReleased c])
  | none => (p, [])

/-- `PortalCreateHoldStore`: create `holdContext` and the hold tuple store
inside it. -/
def PortalCreateHoldStore (p : Portal) : Portal :=
  { p with holdContext := true, holdStore := true }

/-- The frozen portal that the hold-materialization branch of
`PreCommit_Portals` leaves in the table: hold store created, cached plan
released, no resource owner, and both subtransaction ids invalid. -/
def freezeHeld (p : Portal) : Portal :=
  { (PortalReleaseCachedPlan (PortalCreateHoldStore p)).1 with
      resowner := none
      createSubid := InvalidSubTransactionId
      activeSubid := InvalidSubTransactionId }

/-- `MarkPortalDone` on one portal (named `n` in the table): transition to
`PORTAL_DONE` and fire the cleanup hook if still set.  (The source guards
the transition with `Assert(portal->status == PORTAL_ACTIVE)` only.) -/
def MarkPortalDone (n : String) (p : Portal) : Portal × List PEvent :=
  fireCleanup n { p with status := .PORTAL_DONE }

/-- `MarkPortalFailed` on one portal: transition to `PORTAL_FAILED` and fire
the cleanup hook if still set.  (`Assert(portal->status != PORTAL_DONE)`
only.) -/
def MarkPortalFailed (n : String) (p : Portal) : Portal × List PEvent :=
  fireCleanup n { p with status := .PORTAL_FAILED }

/-- The body of `PortalDrop(portal, isTopCommit)`: the external calls it
makes, in order, and the error exit.  On success the portal ceases to exist
(the hash entry is deleted right after the cleanup hook, and the struct is
freed at the end); on the `ereport(ERROR, ERRCODE_INVALID_CURSOR_STATE)`
exit nothing has been touched. -/
def portalDropBody (isTopCommit : Bool) (n : String) (p : Portal) :
    List PEvent × Option PGError :=
  if p.portalPinned ∨ p.status = .PORTAL_ACTIVE then
    ([], some ⟨.ERROR, .invalid_cursor_state⟩)
  else
    let r1 := fireCleanup n p
    let ev2 := if r1.1.resQueueLocked then [PEvent.resUnlockPortal n] else []
    let r3 := PortalReleaseCachedPlan r1.1
    let ev4 :=
      match r3.1.resowner with
      | some o =>
        if ¬ isTopCommit ∨ r3.1.status = .PORTAL_FAILED then
          let isCommit := decide (r3.1.status ≠ .PORTAL_FAILED)
          [PEvent.resourceRelease o .RESOURCE_RELEASE_BEFORE_LOCKS isCommit,
           PEvent.resourceRelease o .RESOURCE_RELEASE_LOCKS isCommit,
           PEvent.resourceRelease o .RESOURCE_RELEASE_AFTER_LOCKS isCommit,
           PEvent.resourceDelete o]
        else []
      | none => []
    let ev5 := if r3.1.holdStore then [PEvent.tuplestoreEnd n] else []
    let ev6 := if r3.1.holdContext then [PEvent.holdContextDeleted n] else []
    (r1.2 ++ ev2 ++ r3.2 ++ ev4 ++ ev5 ++ ev6 ++ [PEvent.heapDeleted n], none)

/-- `PortalDrop` as a step on the table entry holding the portal: remove the
entry on success, keep the untouched portal on the error exit. -/
def dropStep (isTopCommit : Bool) (n : String) (p : Portal) :
    Option Portal × List PEvent × Option PGError :=
  match portalDropBody isTopCommit n p with
  | (ev, some e) => (some p, ev, some e)
  | (ev, none) => (none, ev, none)

/-- Apply a step to the (first) entry of name `n`, leaving the rest of the
table alone: how an operation on a single portal pointer reads back on the
table.  A `none` portal result deletes the entry (`PortalHashTableDelete`);
a name not in the table corresponds to a dangling portal pointer and is a
no-op here. -/
def applyAt (n : String) (f : Portal → Option Portal × List PEvent × Option PGError) :
    PortalTable → PortalTable × List PEvent × Option PGError
  | [] => ([], [], none)
  | (m, p) :: rest =>
    if m = n then
      match f p with
      | (some p', ev, e) => ((m, p') :: rest, ev, e)
      | (none, ev, e) => (rest, ev, e)
    else
      let r := applyAt n f rest
      ((m, p) :: r.1, r.2.1, r.2.2)

/-- A transaction hook's `hash_seq_search` loop: process every entry in
iteration order with a per-entry step.  An `elog`/`ereport` exit from a step
stops the walk there, keeping the mutations already made (the error
longjmps out of the loop). -/
def entrywise (f : String → Portal → Option Portal × List PEvent × Option PGError) :
    PortalTable → PortalTable × List PEvent × Option PGError
  | [] => ([], [], none)
  | (n, p) :: rest =>
    match f n p with
    | (op', ev, some e) =>
      ((match op' with | some p' => (n, p') :: rest | none => rest), ev, some e)
    | (op', ev, none) =>
      let r := entrywise f rest
      ((match op' with | some p' => (n, p') :: r.1 | none => r.1), ev ++ r.2.1, r.2.2)

def markPortalDoneOp (n : String) (t : PortalTable) :
    PortalTable × List PEvent × Option PGError :=
  applyAt n (fun p => let r := MarkPortalDone n p; (some r.1, r.2, none)) t

def markPortalFailedOp (n : String) (t : PortalTable) :
    PortalTable × List PEvent × Option PGError :=
  applyAt n (fun p => let r := MarkPortalFailed n p; (some r.1, r.2, none)) t

def portalDropOp (n : String) (isTopCommit : Bool) (t : PortalTable) :
    PortalTable × List PEvent × Option PGError :=
  applyAt n (dropStep isTopCommit n) t

/-- The loop body of `AtAbort_Portals` for one entry. -/
def atAbortBody (n : String) (p : Portal) :
    Option Portal × List PEvent × Option PGError :=
  let r1 := if p.status = .PORTAL_ACTIVE then MarkPortalFailed n p else (p, [])
  let ev2 :=
    if r1.1.is_extended_query && r1.1.queryDesc then [PEvent.cancelUnfinishedSet n] else []
  if r1.1.createSubid = InvalidSubTransactionId then
    (some r1.1, r1.2 ++ ev2, none)
  else
    -- the `#if 0` branch that would MarkPortalFailed READY portals is
    -- compiled out in this source (GPDB relies on ExecutorEnd running)
    let r3 := fireCleanup n r1.1
    let r4 := PortalReleaseCachedPlan r3.1
    (some { r4.1 with resowner := none },
     r1.2 ++ ev2 ++ r3.2 ++ r4.2 ++ [PEvent.heapChildrenDeleted n], none)

def AtAbort_Portals (t : PortalTable) : PortalTable × List PEvent × Option PGError :=
  entrywise atAbortBody t

/-- The loop body of `AtCleanup_Portals` for one entry: skip survivors,
forcibly unpin, skip (with a warning) a still-pending cleanup hook, then
`PortalDrop(portal, false)`. -/
def atCleanupBody (n : String) (p : Portal) :
    Option Portal × List PEvent × Option PGError :=
  if p.createSubid = InvalidSubTransactionId then (some p, [], none)
  else
    let p1 := if p.portalPinned then { p with portalPinned := false } else p
    let r2 :=
      if p1.cleanup then ({ p1 with cleanup := false }, [PEvent.warnSkippedCleanup n])
      else (p1, [])
    match portalDropBody false n r2.1 with
    | (ev, some e) => (some r2.1, r2.2 ++ ev, some e)
    | (ev, none) => (none, r2.2 ++ ev, none)

def AtCleanup_Portals (t : PortalTable) : PortalTable × List PEvent × Option PGError :=
  entrywise atCleanupBody t

/-- The loop body of `AtSubCommit_Portals` for one entry. -/
def atSubCommitBody (mySubid parentSubid parentXactOwner : Nat) (_n : String) (p : Portal) :
    Option Portal × List PEvent × Option PGError :=
  let r1 :=
    if p.createSubid = mySubid then
      ({ p with createSubid := parentSubid },
       match p.resowner with
       | some o => [PEvent.resourceNewParent o parentXactOwner]
       | none => [])
    else (p, [])
  let p2 := if r1.1.activeSubid = mySubid then { r1.1 with activeSubid := parentSubid } else r1.1
  (some p2, r1.2, none)

def AtSubCommit_Portals (mySubid parentSubid parentXactOwner : Nat) (t : PortalTable) :
    PortalTable × List PEvent × Option PGError :=
  entrywise (atSubCommitBody mySubid parentSubid parentXactOwner) t

/-- The loop body of `AtSubAbort_Portals` for one entry.  (`parentXactOwner`
is in the C signature but unused by the body.) -/
def atSubAbortBody (mySubid parentSubid myXactOwner _parentXactOwner : Nat)
    (n : String) (p : Portal) : Option Portal × List PEvent × Option PGError :=
  if p.createSubid ≠ mySubid then
    if p.activeSubid = mySubid then
      let p1 := { p with activeSubid := parentSubid }
      let r2 := if p1.status = .PORTAL_ACTIVE then MarkPortalFailed n p1 else (p1, [])
      let r3 :=
        if r2.1.status = .PORTAL_FAILED then
          match r2.1.resowner with
          | some o => ({ r2.1 with resowner := none }, [PEvent.resourceNewParent o myXactOwner])
          | none => (r2.1, [])
        else (r2.1, [])
      (some r3.1, r2.2 ++ r3.2, none)
    else (some p, [], none)
  else
    let r1 := if p.status = .PORTAL_ACTIVE then MarkPortalFailed n p else (p, [])
    let r2 := fireCleanup n r1.1
    let r3 := PortalReleaseCachedPlan r2.1
    (some { r3.1 with resowner := none },
     r1.2 ++ r2.2 ++ r3.2 ++ [PEvent.heapChildrenDeleted n], none)

def AtSubAbort_Portals (mySubid parentSubid myXactOwner parentXactOwner : Nat)
    (t : PortalTable) : PortalTable × List PEvent × Option PGError :=
  entrywise (atSubAbortBody mySubid parentSubid myXactOwner parentXactOwner) t

/-- The loop body of `AtSubCleanup_Portals` for one entry. -/
def atSubCleanupBody (mySubid : Nat) (n : String) (p : Portal) :
    Option Portal × List PEvent × Option PGError :=
  if p.createSubid ≠ mySubid then (some p, [], none)
  else
    let p1 := if p.portalPinned then { p with portalPinned := false } else p
    let r2 :=
      if p1.cleanup then ({ p1 with cleanup := false }, [PEvent.warnSkippedCleanup n])
      else (p1, [])
    match portalDropBody false n r2.1 with
    | (ev, some e) => (some r2.1, r2.2 ++ ev, some e)
    | (ev, none) => (none, r2.2 ++ ev, none)

def AtSubCleanup_Portals (mySubid : Nat) (t : PortalTable) :
    PortalTable × List PEvent × Option PGError :=
  entrywise (atSubCleanupBody mySubid) t

/-- One `hash_seq_search` walk of `PreCommit_Portals`.  `restart` reports
that the walk ended early with `hash_seq_term` + `hash_seq_init` pending
(after freezing a holdable portal or dropping one); `changed` is the
walk's contribution to the hook's result. -/
structure PassResult where
  table : PortalTable
  events : List PEvent
  err : Option PGError
  restart : Bool
  changed : Bool
deriving Repr, DecidableEq

def preCommitPass (isPrepare : Bool) : PortalTable → PassResult
  | [] => ⟨[], [], none, false, false⟩
  | (n, p) :: rest =>
    if p.portalPinned then
      -- elog(ERROR, "cannot commit while a portal is pinned")
      ⟨(n, p) :: rest, [], some ⟨.ERROR, .internal_error⟩, false, false⟩
    else if p.status = .PORTAL_ACTIVE then
      let r := preCommitPass isPrepare rest
      ⟨(n, { p with resowner := none }) :: r.table, r.events, r.err, r.restart, r.changed⟩
    else if p.cursorOptions &&& CURSOR_OPT_HOLD ≠ 0 ∧
        p.createSubid ≠ InvalidSubTransactionId ∧ p.status = .PORTAL_READY then
      if isPrepare then
        ⟨(n, p) :: rest, [], some ⟨.ERROR, .feature_not_supported⟩, false, false⟩
      else
        let p1 := PortalCreateHoldStore p
        let r2 := PortalReleaseCachedPlan p1
        let p3 := { r2.1 with
            resowner := none
            createSubid := InvalidSubTransactionId
            activeSubid := InvalidSubTransactionId }
        ⟨(n, p3) :: rest, PEvent.persistCalled n :: r2.2, none, true, true⟩
    else if p.createSubid = InvalidSubTransactionId then
      let r := preCommitPass isPrepare rest
      ⟨(n, p) :: r.table, r.events, r.err, r.restart, r.changed⟩
    else
      match portalDropBody true n p with
      | (ev, some e) => ⟨(n, p) :: rest, ev, some e, false, false⟩
      | (ev, none) => ⟨rest, ev, none, true, true⟩

structure PreCommitResult where
  table : PortalTable
  events : List PEvent
  err : Option PGError
  changed : Bool
deriving Repr, DecidableEq

/-- The outer `while` of `PreCommit_Portals`: rerun the walk after every
restart.  Fuelled recursion: every restarting walk either freezes or drops
an entry whose `createSubid` is a live subtransaction id, so the number of
such entries bounds the restarts and `PreCommit_Portals` passes fuel that
can never run out. -/
def preCommitLoop (isPrepare : Bool) : Nat → PortalTable → Bool → PreCommitResult
  | 0, t, changed => ⟨t, [], none, changed⟩
  | fuel + 1, t, changed =>
    let r := preCommitPass isPrepare t
    match r.err with
    | some e => ⟨r.table, r.events, some e, changed || r.changed⟩
    | none =>
      if r.restart then
        let r2 := preCommitLoop isPrepare fuel r.table (changed || r.changed)
        ⟨r2.table, r.events ++ r2.events, r2.err, r2.changed⟩
      else ⟨r.table, r.events, none, changed || r.changed⟩

def PreCommit_Portals (isPrepare : Bool) (t : PortalTable) : PreCommitResult :=
  preCommitLoop isPrepare
    ((t.filter fun e => decide (e.2.createSubid ≠ InvalidSubTransactionId)).length + 1)
    t false

/-! ## Portal registry: the operations of the cleanup claim -/

/-- The registry operations claim (P3) ranges over: the state transitions
that fire cleanup hooks, the unified drop path, and the transaction
hooks. -/
inductive POp
  | opMarkDone (n : String)
  | opMarkFailed (n : String)
  | opDrop (n : String) (isTopCommit : Bool)
  | opPreCommit (isPrepare : Bool)
  | opAtAbort
  | opAtCleanup
  | opAtSubCommit (mySubid parentSubid parentXactOwner : Nat)
  | opAtSubAbort (mySubid parentSubid myXactOwner parentXactOwner : Nat)
  | opAtSubCleanup (mySubid : Nat)

def runPOp : POp → PortalTable → PortalTable × List PEvent × Option PGError
  | .opMarkDone n, t => markPortalDoneOp n t
  | .opMarkFailed n, t => markPortalFailedOp n t
  | .opDrop n b, t => portalDropOp n b t
  | .opPreCommit b, t =>
    let r := PreCommit_Portals b t
    (r.table, r.events, r.err)
  | .opAtAbort, t => AtAbort_Portals t
  | .opAtCleanup, t => AtCleanup_Portals t
  | .opAtSubCommit my parent pOwner, t => AtSubCommit_Portals my parent pOwner t
  | .opAtSubAbort my parent mOwner pOwner, t => AtSubAbort_Portals my parent mOwner pOwner t
  | .opAtSubCleanup my, t => AtSubCleanup_Portals my t

/-- Run a sequence of registry operations, collecting all external calls.
An operation's error exit is caught by the enclosing transaction machinery;
the state it left behind is what the next operation sees. -/
def runPOps : List POp → PortalTable → PortalTable × List PEvent
  | [], t => (t, [])
  | op :: ops, t =>
    let r := runPOp op t
    let r2 := runPOps ops r.1
    (r2.1, r.2.1 ++ r2.2)

/-- First-match lookup, as in the hash table (keys are unique there). -/
def lookupP : PortalTable → String → Option Portal
  | [], _ => none
  | (m, p) :: rest, n => if m = n then some p else lookupP rest n

/-- Whether the table holds a portal named `n` whose cleanup hook is still
set. -/
def hasCleanupSet (t : PortalTable) (n : String) : Bool :=
  match lookupP t n with
  | some p => p.cleanup
  | none => false

/-- How many times the cleanup hook of the portal named `n` was invoked in a
trace. -/
def cleanCount (n : String) (ev : List PEvent) : Nat :=
  ev.countP fun e => decide (e = PEvent.cleanupCalled n)

def keysOf (t : PortalTable) : List String := t.map Prod.fst

/-- The calls into the resource-owner release machinery (the three-phase
release and the owner deletion). -/
def isResourceEvent : PEvent → Bool
  | .resourceRelease _ _ _ => true
  | .resourceDelete _ => true
  | _ => false

/-- The cleanup discipline of one registry step from table `t` to table
`t'` emitting `ev`: a portal's hook runs at most once, only if it was set,
and a portal whose hook is still set afterwards had it set before and saw
no invocation. -/
def CleanOK (t t' : PortalTable) (ev : List PEvent) : Prop :=
  ∀ n : String,
    cleanCount n ev ≤ 1 ∧
    (hasCleanupSet t n = false → cleanCount n ev = 0) ∧
    (hasCleanupSet t' n = true → hasCleanupSet t n = true ∧ cleanCount n ev = 0)

/-- The cleanup discipline of a per-entry step of a table walk. -/
def EntryCleanOK (f : String → Portal → Option Portal × List PEvent × Option PGError) : Prop :=
  ∀ (n : String) (p : Portal),
    cleanCount n (f n p).2.1 ≤ 1 ∧
    (p.cleanup = false → cleanCount n (f n p).2.1 = 0) ∧
    (∀ p', (f n p).1 = some p' → p'.cleanup = true →
      p.cleanup = true ∧ cleanCount n (f n p).2.1 = 0) ∧
    (∀ m, m ≠ n → cleanCount m (f n p).2.1 = 0)

/-- A holdable portal in READY state created in the running transaction
(witness portal). -/
def wHoldPortal : Portal where
  status := .PORTAL_READY
  cursorOptions := CURSOR_OPT_HOLD
  portalPinned := false
  createSubid := 1
  activeSubid := 1
  stmts := [5]
  cplan := some 3
  resowner := some 7
  cleanup := true
  holdStore := false
  holdContext := false
  resQueueLocked := false
  is_extended_query := false
  queryDesc := false

/-- The same portal, pinned (counterexample portal). -/
def cexPinnedHold : Portal := { wHoldPortal with portalPinned := true }

/-- The same portal with plain (non-cached-plan) statements
(counterexample portal). -/
def cexNoPlanHold : Portal := { wHoldPortal with cplan := none }

/-- A defined portal still owning a resource owner (witness portal). -/
def wOwnedPortal : Portal where
  status := .PORTAL_DEFINED
  cursorOptions := 0
  portalPinned := false
  createSubid := 1
  activeSubid := 1
  stmts := []
  cplan := none
  resowner := some 7
  cleanup := false
  holdStore := false
  holdContext := false
  resQueueLocked := false
  is_extended_query := false
  queryDesc := false

/-- A running portal with its cleanup hook still set (witness portal). -/
def wActivePortal : Portal where
  status := .PORTAL_ACTIVE
  cursorOptions := 0
  portalPinned := false
  createSubid := 1
  activeSubid := 1
  stmts := []
  cplan := none
  resowner := some 7
  cleanup := true
  holdStore := false
  holdContext := false
  resQueueLocked := false
  is_extended_query := false
  queryDesc := false

/-! ## Timeout multiplexer: list lemmas -/

theorem count_eraseIdx_self :
    ∀ (l : List Nat) (i : Nat) (j : Nat), l[i]? = some j →
      (l.eraseIdx i).count j + 1 = l.count j := by
  intro l
  induction l with
  | nil => intro i j h; simp at h
  | cons a t ih =>
    intro i j h
    cases i with
    | zero =>
      simp only [List.getElem?_cons_zero, Option.some.injEq] at h
      subst h
      simp [List.count_cons]
    | succ i =>
      simp only [List.getElem?_cons_succ] at h
      have := ih i j h
      simp only [List.eraseIdx_cons_succ, List.count_cons]
      omega

theorem count_eraseIdx_ne :
    ∀ (l : List Nat) (i : Nat) (j m : Nat), l[i]? = some j → m ≠ j →
      (l.eraseIdx i).count m = l.count m := by
  intro l
  induction l with
  | nil => intro i j m h; simp at h
  | cons a t ih =>
    intro i j m h hne
    cases i with
    | zero =>
      simp only [List.getElem?_cons_zero, Option.some.injEq] at h
      subst h
      simp [List.count_cons, hne]
    | succ i =>
      simp only [List.getElem?_cons_succ] at h
      have := ih i j m h hne
      simp only [List.eraseIdx_cons_succ, List.count_cons, this]

theorem filter_eraseIdx_self :
    ∀ (l : List Nat) (i : Nat) (j : Nat), l[i]? = some j →
      (l.eraseIdx i).filter (fun a => a != j) = l.filter (fun a => a != j) := by
  intro l
  induction l with
  | nil => intro i j h; simp at h
  | cons a t ih =>
    intro i j h
    cases i with
    | zero =>
      simp only [List.getElem?_cons_zero, Option.some.injEq] at h
      subst h
      simp [List.filter_cons]
    | succ i =>
      simp only [List.getElem?_cons_succ] at h
      simp only [List.eraseIdx_cons_succ, List.filter_cons, ih i j h]

theorem mem_of_getElem?_eq_some {l : List Nat} {i : Nat} {j : Nat}
    (h : l[i]? = some j) : j ∈ l := by
  induction l generalizing i with
  | nil => simp at h
  | cons a t ih =>
    cases i with
    | zero =>
      simp only [List.getElem?_cons_zero, Option.some.injEq] at h
      simp [h]
    | succ i =>
      simp only [List.getElem?_cons_succ] at h
      exact List.mem_cons_of_mem a (ih h)

/-! ## Timeout multiplexer: facts about the helpers -/

theorem findActiveAux_mem (all : Nat → timeout_params) (id : Nat) :
    ∀ (l : List Nat), (∀ j ∈ l, (all j).index = j) → id ∈ l →
      ∃ k, findActiveAux all id l = some k := by
  intro l
  induction l with
  | nil => intro _ h; simp at h
  | cons j rest ih =>
    intro hidx hmem
    by_cases hj : (all j).index = id
    · exact ⟨0, by simp [findActiveAux, hj]⟩
    · have hji : (all j).index = j := hidx j (List.mem_cons_self j rest)
      have hne : j ≠ id := fun h => hj (hji.trans h)
      have hrest : id ∈ rest := by
        rcases List.mem_cons.mp hmem with h | h
        · exact absurd h.symm hne
        · exact h
      obtain ⟨k, hk⟩ := ih (fun a ha => hidx a (List.mem_cons_of_mem j ha)) hrest
      exact ⟨k + 1, by simp [findActiveAux, hj, hk]⟩

theorem findActiveAux_getElem? (all : Nat → timeout_params) (id : Nat) :
    ∀ (l : List Nat) (k : Nat), (∀ j ∈ l, (all j).index = j) →
      findActiveAux all id l = some k → l[k]? = some id := by
  intro l
  induction l with
  | nil => intro k _ h; simp [findActiveAux] at h
  | cons j rest ih =>
    intro k hidx h
    rw [findActiveAux] at h
    by_cases hj : (all j).index = id
    · rw [if_pos hj] at h
      injection h with h
      subst h
      have hji : (all j).index = j := hidx j (List.mem_cons_self j rest)
      have hjid : j = id := hji.symm.trans hj
      simp [hjid]
    · rw [if_neg hj] at h
      cases hk' : findActiveAux all id rest with
      | none => rw [hk'] at h; simp at h
      | some k' =>
        rw [hk'] at h
        simp only [Option.map_some'] at h
        injection h with h
        subst h
        simpa using ih k' (fun a ha => hidx a (List.mem_cons_of_mem j ha)) hk'

theorem insPosAux_le_length (all : Nat → timeout_params) (fin_time : Int) (id : Nat) :
    ∀ (l : List Nat), insPosAux all fin_time id l ≤ l.length := by
  intro l
  induction l with
  | nil => simp [insPosAux]
  | cons j rest ih =>
    by_cases h : fin_time < (all j).fin_time ∨ (fin_time = (all j).fin_time ∧ id < (all j).index)
    · simp [insPosAux, h]
    · simp only [insPosAux, if_neg h, List.length_cons]
      omega

/-- The effect of `insert_timeout` at the position the `enable_timeout` loop
computes, read off structurally: insert `id` right before the first entry
with a strictly larger `(fin_time, id)` key. -/
def insRec (all : Nat → timeout_params) (fin_time : Int) (id : Nat) : List Nat → List Nat
  | [] => [id]
  | j :: rest =>
    if fin_time < (all j).fin_time ∨ (fin_time = (all j).fin_time ∧ id < (all j).index) then
      id :: j :: rest
    else j :: insRec all fin_time id rest

theorem insertIdx_insPosAux (all : Nat → timeout_params) (fin_time : Int) (id : Nat) :
    ∀ (l : List Nat), l.insertIdx (insPosAux all fin_time id l) id = insRec all fin_time id l := by
  intro l
  induction l with
  | nil => simp [insPosAux, insRec]
  | cons j rest ih =>
    by_cases h : fin_time < (all j).fin_time ∨ (fin_time = (all j).fin_time ∧ id < (all j).index)
    · simp [insPosAux, insRec, h]
    · simp only [insPosAux, insRec, if_neg h]
      rw [List.insertIdx_succ_cons, ih]

theorem count_insRec_self (all : Nat → timeout_params) (fin_time : Int) (id : Nat) :
    ∀ (l : List Nat), (insRec all fin_time id l).count id = l.count id + 1 := by
  intro l
  induction l with
  | nil => simp [insRec]
  | cons j rest ih =>
    by_cases h : fin_time < (all j).fin_time ∨ (fin_time = (all j).fin_time ∧ id < (all j).index)
    · simp [insRec, h, List.count_cons]
    · simp only [insRec, if_neg h, List.count_cons, ih]
      omega

theorem count_insRec_ne (all : Nat → timeout_params) (fin_time : Int) (id m : Nat)
    (hm : m ≠ id) :
    ∀ (l : List Nat), (insRec all fin_time id l).count m = l.count m := by
  intro l
  induction l with
  | nil => simp [insRec, List.count_cons, hm]
  | cons j rest ih =>
    by_cases h : fin_time < (all j).fin_time ∨ (fin_time = (all j).fin_time ∧ id < (all j).index)
    · simp [insRec, h, List.count_cons, hm]
    · simp only [insRec, if_neg h, List.count_cons, ih]

theorem filter_insRec (all : Nat → timeout_params) (fin_time : Int) (id : Nat) :
    ∀ (l : List Nat),
      (insRec all fin_time id l).filter (fun a => a != id) = l.filter (fun a => a != id) := by
  intro l
  induction l with
  | nil => simp [insRec]
  | cons j rest ih =>
    by_cases h : fin_time < (all j).fin_time ∨ (fin_time = (all j).fin_time ∧ id < (all j).index)
    · simp [insRec, h, List.filter_cons]
    · simp only [insRec, if_neg h, List.filter_cons, ih]

theorem mem_insRec (all : Nat → timeout_params) (fin_time : Int) (id : Nat) :
    ∀ (l : List Nat) (a : Nat), a ∈ insRec all fin_time id l → a = id ∨ a ∈ l := by
  intro l
  induction l with
  | nil => intro a ha; simp [insRec] at ha; exact Or.inl ha
  | cons j rest ih =>
    intro a ha
    by_cases h : fin_time < (all j).fin_time ∨ (fin_time = (all j).fin_time ∧ id < (all j).index)
    · simp only [insRec, if_pos h, List.mem_cons] at ha
      rcases ha with rfl | rfl | ha <;> simp_all
    · simp only [insRec, if_neg h, List.mem_cons] at ha
      rcases ha with rfl | ha
      · simp
      · rcases ih a ha with h' | h' <;> simp [h']

theorem keyLT_trans {a b c : Int × Nat} (h1 : keyLT a b) (h2 : keyLT b c) : keyLT a c := by
  obtain ⟨a1, a2⟩ := a; obtain ⟨b1, b2⟩ := b; obtain ⟨c1, c2⟩ := c
  simp only [keyLT] at *
  omega

theorem keyLT_irrefl (a : Int × Nat) : ¬ keyLT a a := by
  obtain ⟨a1, a2⟩ := a
  simp only [keyLT]
  omega

theorem pairwise_key_congr (all all2 : Nat → timeout_params) :
    ∀ (l : List Nat), (∀ j ∈ l, qkey all2 j = qkey all j) →
      l.Pairwise (fun a b => keyLT (qkey all a) (qkey all b)) →
      l.Pairwise (fun a b => keyLT (qkey all2 a) (qkey all2 b)) := by
  intro l hk hp
  refine hp.imp_of_mem ?_
  intro a b ha hb h
  rw [hk a ha, hk b hb]
  exact h

theorem count_le_one_of_pairwise (all : Nat → timeout_params) :
    ∀ (l : List Nat),
      l.Pairwise (fun a b => keyLT (qkey all a) (qkey all b)) →
      ∀ a, l.count a ≤ 1 := by
  intro l
  induction l with
  | nil => intro _ a; simp
  | cons j rest ih =>
    intro hp a
    have hj : j ∉ rest := by
      intro hmem
      exact keyLT_irrefl (qkey all j) (List.rel_of_pairwise_cons hp hmem)
    by_cases ha : a = j
    · subst ha
      have : rest.count a = 0 := List.count_eq_zero.mpr hj
      simp [List.count_cons, this]
    · have := ih hp.of_cons a
      simp [List.count_cons, ha, this]

theorem pairwise_insRec (all all2 : Nat → timeout_params) (fin_time : Int) (id : Nat) :
    ∀ (l : List Nat),
      (∀ j ∈ l, (all j).index = j) →
      id ∉ l →
      l.Pairwise (fun a b => keyLT (qkey all a) (qkey all b)) →
      (∀ j ∈ l, qkey all2 j = qkey all j) →
      qkey all2 id = (fin_time, id) →
      (insRec all fin_time id l).Pairwise
        (fun a b => keyLT (qkey all2 a) (qkey all2 b)) := by
  intro l
  induction l with
  | nil =>
    intro _ _ _ _ _
    simp [insRec]
  | cons j rest ih =>
    intro hidx hnid hp hk hkid
    have hji : (all j).index = j := hidx j (List.mem_cons_self j rest)
    have hkj : qkey all2 j = qkey all j := hk j (List.mem_cons_self j rest)
    have hidj : id ≠ j := fun h => hnid (h ▸ List.mem_cons_self j rest)
    by_cases h : fin_time < (all j).fin_time ∨ (fin_time = (all j).fin_time ∧ id < (all j).index)
    · -- insert before the head: id's key is strictly below every key in j :: rest
      have hlt : keyLT (fin_time, id) (qkey all j) := by
        simp only [qkey, keyLT]
        rcases h with h | ⟨h1, h2⟩
        · exact Or.inl h
        · exact Or.inr ⟨h1, hji ▸ h2⟩
      rw [insRec, if_pos h]
      refine List.Pairwise.cons ?_ (pairwise_key_congr all all2 _ hk hp)
      intro b hb
      rw [hkid]
      rcases List.mem_cons.mp hb with rfl | hb
      · rw [hkj]; exact hlt
      · rw [hk b (List.mem_cons_of_mem j hb)]
        exact keyLT_trans hlt (List.rel_of_pairwise_cons hp hb)
    · -- keep the head: j's key is strictly below id's key
      have hgt : keyLT (qkey all j) (fin_time, id) := by
        simp only [qkey, keyLT]
        push_neg at h
        obtain ⟨h1, h2⟩ := h
        rcases lt_or_eq_of_le h1 with h1 | h1
        · exact Or.inl h1
        · refine Or.inr ⟨h1, ?_⟩
          have := h2 h1.symm
          rw [hji] at this
          omega
      rw [insRec, if_neg h]
      refine List.Pairwise.cons ?_ ?_
      · intro b hb
        rcases mem_insRec all fin_time id rest b hb with rfl | hb
        · rw [hkid, hkj]; exact hgt
        · rw [hkj, hk b (List.mem_cons_of_mem j hb)]
          exact List.rel_of_pairwise_cons hp hb
      · exact ih (fun a ha => hidx a (List.mem_cons_of_mem j ha))
          (fun hmem => hnid (List.mem_cons_of_mem j hmem)) hp.of_cons
          (fun a ha => hk a (List.mem_cons_of_mem j ha)) hkid

/-! ## Timeout multiplexer: preservation of the queue invariant -/

theorem qkey_upd_of_fin_time_eq (all : Nat → timeout_params) (j : Nat) (v : timeout_params)
    (h : v.fin_time = (all j).fin_time) (a : Nat) : qkey (upd all j v) a = qkey all a := by
  by_cases ha : a = j
  · subst ha; simp [qkey, h]
  · simp [qkey, ha]

theorem QueueWF_config (st st' : TimeoutState)
    (h1 : st'.all_timeouts = st.all_timeouts) (h2 : st'.active_queue = st.active_queue) :
    QueueWF st → QueueWF st' := by
  intro h
  unfold QueueWF at *
  rw [h1, h2]
  exact h

theorem remove_timeout_index_spec (st : TimeoutState) (k : Nat) (st' : TimeoutState)
    (hwf : QueueWF st) (h : remove_timeout_index st k = some st') :
    ∃ j, st.active_queue[k]? = some j ∧
      st'.all_timeouts = upd st.all_timeouts j { st.all_timeouts j with active := false } ∧
      st'.active_queue = st.active_queue.eraseIdx k ∧
      st'.alarm_enabled = st.alarm_enabled ∧
      st'.active_queue.count j = 0 ∧
      QueueWF st' := by
  obtain ⟨hidx, hbound, hcnt, hsort⟩ := hwf
  unfold remove_timeout_index at h
  cases hq : st.active_queue[k]? with
  | none => rw [hq] at h; exact absurd h (by simp)
  | some j =>
    rw [hq] at h
    injection h with h
    subst h
    have hjmem : j ∈ st.active_queue := mem_of_getElem?_eq_some hq
    have hjMAX : j < MAX_TIMEOUTS := hbound j hjmem
    have hc1 : st.active_queue.count j = 1 := by
      have hle := count_le_one_of_pairwise st.all_timeouts st.active_queue hsort j
      have hpos : 0 < st.active_queue.count j := List.count_pos_iff.mpr hjmem
      omega
    have hcz : (st.active_queue.eraseIdx k).count j = 0 := by
      have := count_eraseIdx_self st.active_queue k j hq
      omega
    refine ⟨j, rfl, rfl, rfl, rfl, hcz, ?_, ?_, ?_, ?_⟩
    · -- index invariant
      intro i hi
      by_cases hij : i = j
      · subst hij; simp [hidx i hi]
      · simp [hij, hidx i hi]
    · -- bounds
      intro a ha
      exact hbound a (List.mem_of_mem_eraseIdx ha)
    · -- active iff count = 1
      intro i hi
      by_cases hij : i = j
      · subst hij
        simp only [upd_same]
        constructor
        · intro hfalse; simp at hfalse
        · intro hc; rw [hcz] at hc; simp at hc
      · simp only [upd_ne _ _ _ i hij]
        rw [count_eraseIdx_ne st.active_queue k j i hq hij]
        exact hcnt i hi
    · -- sortedness
      refine pairwise_key_congr st.all_timeouts _ _ ?_ (hsort.eraseIdx k)
      intro a _
      exact qkey_upd_of_fin_time_eq st.all_timeouts j
        { st.all_timeouts j with active := false } rfl a

theorem insert_timeout_spec (st : TimeoutState) (id : Nat) (i : Nat)
    (h : i ≤ st.active_queue.length) :
    insert_timeout st id i = some
      { st with
          all_timeouts := upd st.all_timeouts id { st.all_timeouts id with active := true }
          active_queue := st.active_queue.insertIdx i id } := by
  unfold insert_timeout
  rw [if_neg (by omega)]

theorem enable_insert_step (st1 : TimeoutState) (id : Nat) (now fin_time : Int)
    (hwf : QueueWF st1) (hid : id < MAX_TIMEOUTS)
    (hcz : st1.active_queue.count id = 0) :
    ∃ st',
      insert_timeout
        { st1 with
            all_timeouts := upd st1.all_timeouts id
              { st1.all_timeouts id with
                  indicator := false, start_time := now, fin_time := fin_time } }
        id (insPosAux st1.all_timeouts fin_time id st1.active_queue) = some st' ∧
      QueueWF st' ∧
      st'.all_timeouts id = { st1.all_timeouts id with
          active := true, indicator := false, start_time := now, fin_time := fin_time } ∧
      (∀ m, m ≠ id → st'.all_timeouts m = st1.all_timeouts m) ∧
      st'.active_queue.count id = 1 ∧
      st'.active_queue.filter (fun a => a != id) =
        st1.active_queue.filter (fun a => a != id) ∧
      st'.alarm_enabled = st1.alarm_enabled := by
  obtain ⟨hidx, hbound, hcnt, hsort⟩ := hwf
  have hnotmem : id ∉ st1.active_queue := by
    intro hmem
    have := List.count_pos_iff.mpr hmem
    omega
  have hle := insPosAux_le_length st1.all_timeouts fin_time id st1.active_queue
  have hins := insert_timeout_spec
    { st1 with
        all_timeouts := upd st1.all_timeouts id
          { st1.all_timeouts id with
              indicator := false, start_time := now, fin_time := fin_time } }
    id (insPosAux st1.all_timeouts fin_time id st1.active_queue) (by simpa using hle)
  rw [insertIdx_insPosAux] at hins
  have hall_id :
      (upd (upd st1.all_timeouts id
          { st1.all_timeouts id with
              indicator := false, start_time := now, fin_time := fin_time }) id
        { (upd st1.all_timeouts id
            { st1.all_timeouts id with
                indicator := false, start_time := now, fin_time := fin_time }) id
            with active := true }) id =
      { st1.all_timeouts id with
          active := true, indicator := false, start_time := now, fin_time := fin_time } := by
    simp
  have hall_ne : ∀ m, m ≠ id →
      (upd (upd st1.all_timeouts id
          { st1.all_timeouts id with
              indicator := false, start_time := now, fin_time := fin_time }) id
        { (upd st1.all_timeouts id
            { st1.all_timeouts id with
                indicator := false, start_time := now, fin_time := fin_time }) id
            with active := true }) m = st1.all_timeouts m := by
    intro m hm
    simp [upd_ne _ _ _ m hm]
  refine ⟨_, hins, ⟨?_, ?_, ?_, ?_⟩, hall_id, hall_ne, ?_, ?_, rfl⟩
  all_goals dsimp only
  · -- index invariant
    intro i hi
    by_cases hij : i = id
    · subst hij
      rw [hall_id]
      simpa using hidx i hi
    · rw [hall_ne i hij]
      exact hidx i hi
  · -- bounds
    intro a ha
    rcases mem_insRec st1.all_timeouts fin_time id st1.active_queue a ha with rfl | ha
    · exact hid
    · exact hbound a ha
  · -- active iff count = 1
    intro i hi
    by_cases hij : i = id
    · subst hij
      rw [hall_id, count_insRec_self]
      simp [hcz]
    · rw [hall_ne i hij, count_insRec_ne st1.all_timeouts fin_time id i hij]
      exact hcnt i hi
  · -- sortedness
    refine pairwise_insRec st1.all_timeouts _ fin_time id st1.active_queue
      (fun a ha => hidx a (hbound a ha)) hnotmem hsort ?_ ?_
    · intro a ha
      have hane : a ≠ id := fun h => hnotmem (h ▸ ha)
      rw [qkey, hall_ne a hane, qkey]
    · rw [qkey, hall_id]
  · -- the counted occurrence
    rw [count_insRec_self, hcz]
  · -- other entries are untouched
    exact filter_insRec st1.all_timeouts fin_time id st1.active_queue

theorem enable_timeout_spec (st : TimeoutState) (id : Nat) (now fin_time : Int)
    (hwf : QueueWF st) (hid : id < MAX_TIMEOUTS) :
    ∃ st', enable_timeout st id now fin_time = some st' ∧
      QueueWF st' ∧
      st'.all_timeouts id = { st.all_timeouts id with
          active := true, indicator := false, start_time := now, fin_time := fin_time } ∧
      (∀ m, m ≠ id → st'.all_timeouts m = st.all_timeouts m) ∧
      st'.active_queue.count id = 1 ∧
      st'.active_queue.filter (fun a => a != id) =
        st.active_queue.filter (fun a => a != id) ∧
      st'.alarm_enabled = st.alarm_enabled := by
  by_cases hact : (st.all_timeouts id).active
  · -- already active: spliced out first, then re-inserted
    have hmem : id ∈ st.active_queue := by
      have hc1 : st.active_queue.count id = 1 :=
        (hwf.2.2.1 id hid).mp hact
      exact List.count_pos_iff.mp (by omega)
    obtain ⟨k, hfind⟩ := findActiveAux_mem st.all_timeouts id st.active_queue
      (fun a ha => hwf.1 a (hwf.2.1 a ha)) hmem
    have hgetk : st.active_queue[k]? = some id :=
      findActiveAux_getElem? st.all_timeouts id st.active_queue k
        (fun a ha => hwf.1 a (hwf.2.1 a ha)) hfind
    cases hrem : remove_timeout_index st k with
    | none => rw [remove_timeout_index, hgetk] at hrem; exact absurd hrem (by simp)
    | some st1 =>
      obtain ⟨j, hgetj, hall1, hq1, hflag1, hczj, hwf1⟩ :=
        remove_timeout_index_spec st k st1 hwf hrem
      have hjid : j = id := by
        rw [hgetk] at hgetj
        exact (Option.some.inj hgetj).symm
      rw [hjid] at hall1 hczj
      obtain ⟨st', hins, hwf', hall_id, hall_ne, hcount, hfilter, hflag'⟩ :=
        enable_insert_step st1 id now fin_time hwf1 hid hczj
      have hra : remove_if_active st id = some st1 := by
        unfold remove_if_active
        rw [if_pos hact, find_active_timeout, hfind]
        exact hrem
      refine ⟨st', ?_, hwf', ?_, ?_, hcount, ?_, ?_⟩
      · unfold enable_timeout
        rw [hra]
        exact hins
      · rw [hall_id, hall1]
        simp
      · intro m hm
        rw [hall_ne m hm, hall1, upd_ne _ _ _ m hm]
      · rw [hfilter, hq1, filter_eraseIdx_self st.active_queue k id hgetk]
      · rw [hflag', hflag1]
  · -- not active: inserted directly
    have hcz : st.active_queue.count id = 0 := by
      have hle := count_le_one_of_pairwise st.all_timeouts st.active_queue hwf.2.2.2 id
      have := hwf.2.2.1 id hid
      rcases Nat.lt_or_ge (st.active_queue.count id) 1 with h | h
      · omega
      · exact absurd (this.mpr (by omega)) hact
    obtain ⟨st', hins, hwf', hall_id, hall_ne, hcount, hfilter, hflag'⟩ :=
      enable_insert_step st id now fin_time hwf hid hcz
    refine ⟨st', ?_, hwf', hall_id, hall_ne, hcount, hfilter, hflag'⟩
    have hra : remove_if_active st id = some st := by
      unfold remove_if_active
      rw [if_neg hact]
    unfold enable_timeout
    rw [hra]
    exact hins

theorem remove_if_active_spec (st : TimeoutState) (id : Nat) (st1 : TimeoutState)
    (hwf : QueueWF st) (h : remove_if_active st id = some st1) :
    QueueWF st1 ∧ st1.alarm_enabled = st.alarm_enabled := by
  unfold remove_if_active at h
  by_cases hact : (st.all_timeouts id).active
  · rw [if_pos hact] at h
    cases hfind : find_active_timeout st id with
    | none => rw [hfind] at h; simp at h
    | some k =>
      rw [hfind] at h
      obtain ⟨j, _, _, _, hflag, _, hwf1⟩ := remove_timeout_index_spec st k st1 hwf h
      exact ⟨hwf1, hflag⟩
  · rw [if_neg hact] at h
    injection h with h
    subst h
    exact ⟨hwf, rfl⟩

theorem QueueWF_upd (st : TimeoutState) (i : Nat) (v : timeout_params)
    (hv_index : v.index = (st.all_timeouts i).index)
    (hv_active : v.active = (st.all_timeouts i).active)
    (hv_fin : v.fin_time = (st.all_timeouts i).fin_time)
    (hwf : QueueWF st) :
    QueueWF { st with all_timeouts := upd st.all_timeouts i v } := by
  obtain ⟨hidx, hbound, hcnt, hsort⟩ := hwf
  refine ⟨?_, hbound, ?_, ?_⟩
  · intro a ha
    by_cases hai : a = i
    · subst hai
      simpa [hv_index] using hidx a ha
    · simpa [upd_ne _ _ _ a hai] using hidx a ha
  · intro a ha
    by_cases hai : a = i
    · subst hai
      simpa [hv_active] using hcnt a ha
    · simpa [upd_ne _ _ _ a hai] using hcnt a ha
  · refine pairwise_key_congr st.all_timeouts _ _ ?_ hsort
    intro a _
    exact qkey_upd_of_fin_time_eq st.all_timeouts i v hv_fin a

theorem schedule_alarm_state (st : TimeoutState) (now : Int) :
    (schedule_alarm st now).all_timeouts = st.all_timeouts ∧
    (schedule_alarm st now).active_queue = st.active_queue := by
  unfold schedule_alarm
  by_cases h : st.active_queue.length > 0
  · rw [if_pos h]; exact ⟨rfl, rfl⟩
  · rw [if_neg h]; exact ⟨rfl, rfl⟩

theorem QueueWF_schedule_alarm (st : TimeoutState) (now : Int) (hwf : QueueWF st) :
    QueueWF (schedule_alarm st now) :=
  QueueWF_config st _ (schedule_alarm_state st now).1 (schedule_alarm_state st now).2 hwf

theorem QueueWF_disable_flag (st : TimeoutState) (hwf : QueueWF st) :
    QueueWF { st with alarm_enabled := false } :=
  QueueWF_config st _ rfl rfl hwf

theorem enable_timeout_after_wf (st : TimeoutState) (id : Nat) (delay_ms : Int) (now : Int)
    (st' : TimeoutState) (hwf : QueueWF st) (hid : id < MAX_TIMEOUTS)
    (h : enable_timeout_after st id delay_ms now = some st') : QueueWF st' := by
  unfold enable_timeout_after at h
  dsimp only at h
  obtain ⟨st1, heq, hwf1, -⟩ :=
    enable_timeout_spec { st with alarm_enabled := false } id now
      (TimestampTzPlusMilliseconds now delay_ms) (QueueWF_disable_flag st hwf) hid
  rw [heq] at h
  injection h with h
  subst h
  exact QueueWF_schedule_alarm st1 now hwf1

theorem enable_timeout_at_wf (st : TimeoutState) (id : Nat) (fin_time : Int) (now : Int)
    (st' : TimeoutState) (hwf : QueueWF st) (hid : id < MAX_TIMEOUTS)
    (h : enable_timeout_at st id fin_time now = some st') : QueueWF st' := by
  unfold enable_timeout_at at h
  dsimp only at h
  obtain ⟨st1, heq, hwf1, -⟩ :=
    enable_timeout_spec { st with alarm_enabled := false } id now fin_time
      (QueueWF_disable_flag st hwf) hid
  rw [heq] at h
  injection h with h
  subst h
  exact QueueWF_schedule_alarm st1 now hwf1

theorem enableTimeoutsLoop_wf (now : Int) :
    ∀ (ps : List EnableTimeoutParams) (st st' : TimeoutState),
      QueueWF st → (∀ p ∈ ps, p.id < MAX_TIMEOUTS) →
      enableTimeoutsLoop now st ps = some st' → QueueWF st' := by
  intro ps
  induction ps with
  | nil =>
    intro st st' hwf _ h
    unfold enableTimeoutsLoop at h
    injection h with h
    subst h
    exact hwf
  | cons t rest ih =>
    intro st st' hwf hids h
    have hid : t.id < MAX_TIMEOUTS := hids t (List.mem_cons_self t rest)
    unfold enableTimeoutsLoop at h
    cases htype : t.type with
    | TMPARAM_AFTER =>
      rw [htype] at h
      obtain ⟨st1, heq, hwf1, -⟩ :=
        enable_timeout_spec st t.id now (TimestampTzPlusMilliseconds now t.delay_ms) hwf hid
      rw [heq] at h
      exact ih st1 st' hwf1 (fun p hp => hids p (List.mem_cons_of_mem t hp)) h
    | TMPARAM_AT =>
      rw [htype] at h
      obtain ⟨st1, heq, hwf1, -⟩ :=
        enable_timeout_spec st t.id now t.fin_time hwf hid
      rw [heq] at h
      exact ih st1 st' hwf1 (fun p hp => hids p (List.mem_cons_of_mem t hp)) h

theorem enable_timeouts_wf (st : TimeoutState) (ps : List EnableTimeoutParams) (now : Int)
    (st' : TimeoutState) (hwf : QueueWF st) (hids : ∀ p ∈ ps, p.id < MAX_TIMEOUTS)
    (h : enable_timeouts st ps now = some st') : QueueWF st' := by
  unfold enable_timeouts at h
  dsimp only at h
  cases hloop : enableTimeoutsLoop now { st with alarm_enabled := false } ps with
  | none => rw [hloop] at h; simp at h
  | some st1 =>
    rw [hloop] at h
    injection h with h
    subst h
    exact QueueWF_schedule_alarm st1 now
      (enableTimeoutsLoop_wf now ps _ st1 (QueueWF_disable_flag st hwf) hids hloop)

theorem disable_step_wf (st st1 : TimeoutState) (id : Nat) (keep : Bool)
    (hwf : QueueWF st) (h : remove_if_active st id = some st1) :
    QueueWF
      (if keep then st1
       else { st1 with
          all_timeouts := upd st1.all_timeouts id
            { st1.all_timeouts id with indicator := false } }) := by
  obtain ⟨hwf1, -⟩ := remove_if_active_spec st id st1 hwf h
  by_cases hk : keep
  · rw [if_pos hk]; exact hwf1
  · rw [if_neg hk]
    exact QueueWF_upd st1 id _ rfl rfl rfl hwf1

theorem disable_timeout_wf (st : TimeoutState) (id : Nat) (keep : Bool) (now : Int)
    (st' : TimeoutState) (hwf : QueueWF st)
    (h : disable_timeout st id keep now = some st') : QueueWF st' := by
  unfold disable_timeout at h
  dsimp only at h
  cases hra : remove_if_active { st with alarm_enabled := false } id with
  | none => rw [hra] at h; simp at h
  | some st1 =>
    rw [hra] at h
    injection h with h
    subst h
    have hwf2 := disable_step_wf _ st1 id keep (QueueWF_disable_flag st hwf) hra
    by_cases hlen :
        (if keep then st1
         else { st1 with
            all_timeouts := upd st1.all_timeouts id
              { st1.all_timeouts id with indicator := false } }).active_queue.length > 0
    · rw [if_pos hlen]
      exact QueueWF_schedule_alarm _ now hwf2
    · rw [if_neg hlen]
      exact hwf2

theorem disableTimeoutsLoop_wf :
    ∀ (ps : List DisableTimeoutParams) (st st' : TimeoutState),
      QueueWF st → disableTimeoutsLoop st ps = some st' → QueueWF st' := by
  intro ps
  induction ps with
  | nil =>
    intro st st' hwf h
    unfold disableTimeoutsLoop at h
    injection h with h
    subst h
    exact hwf
  | cons t rest ih =>
    intro st st' hwf h
    unfold disableTimeoutsLoop at h
    cases hra : remove_if_active st t.id with
    | none => rw [hra] at h; simp at h
    | some st1 =>
      rw [hra] at h
      have hwf2 := disable_step_wf st st1 t.id t.keep_indicator hwf hra
      exact ih _ st' hwf2 h

theorem disable_timeouts_wf (st : TimeoutState) (ps : List DisableTimeoutParams) (now : Int)
    (st' : TimeoutState) (hwf : QueueWF st)
    (h : disable_timeouts st ps now = some st') : QueueWF st' := by
  unfold disable_timeouts at h
  dsimp only at h
  cases hloop : disableTimeoutsLoop { st with alarm_enabled := false } ps with
  | none => rw [hloop] at h; simp at h
  | some st1 =>
    rw [hloop] at h
    injection h with h
    subst h
    have hwf1 := disableTimeoutsLoop_wf ps _ st1 (QueueWF_disable_flag st hwf) hloop
    by_cases hlen : st1.active_queue.length > 0
    · rw [if_pos hlen]
      exact QueueWF_schedule_alarm st1 now hwf1
    · rw [if_neg hlen]
      exact hwf1

/-! ## Timeout multiplexer: the dispatch loop -/

theorem dispatchLoop_trace_append :
    ∀ (queue : List Nat) (all : Nat → timeout_params) (now : Int) (nows : List Int),
      (dispatchLoop all queue now nows).2.2.1 ++ (dispatchLoop all queue now nows).2.1 =
        queue := by
  intro queue
  induction queue with
  | nil => intro all now nows; rfl
  | cons j rest ih =>
    intro all now nows
    rw [dispatchLoop.eq_def]
    dsimp only
    by_cases h : (all j).fin_time ≤ now
    · rw [if_pos h]
      dsimp only
      rw [List.cons_append, ih]
    · rw [if_neg h]
      rfl

theorem dispatchLoop_start_fin :
    ∀ (queue : List Nat) (all : Nat → timeout_params) (now : Int) (nows : List Int) (i : Nat),
      ((dispatchLoop all queue now nows).1 i).start_time = (all i).start_time ∧
      ((dispatchLoop all queue now nows).1 i).fin_time = (all i).fin_time := by
  intro queue
  induction queue with
  | nil => intro all now nows i; exact ⟨rfl, rfl⟩
  | cons j rest ih =>
    intro all now nows i
    rw [dispatchLoop.eq_def]
    dsimp only
    by_cases h : (all j).fin_time ≤ now
    · rw [if_pos h]
      cases nows with
      | nil =>
        dsimp only
        have hrec := ih (upd all j { all j with active := false, indicator := true }) now [] i
        by_cases hij : i = j
        · subst hij
          exact ⟨by rw [hrec.1]; simp, by rw [hrec.2]; simp⟩
        · exact ⟨by rw [hrec.1]; simp [upd_ne _ _ _ i hij],
            by rw [hrec.2]; simp [upd_ne _ _ _ i hij]⟩
      | cons t ts =>
        dsimp only
        have hrec := ih (upd all j { all j with active := false, indicator := true }) t ts i
        by_cases hij : i = j
        · subst hij
          exact ⟨by rw [hrec.1]; simp, by rw [hrec.2]; simp⟩
        · exact ⟨by rw [hrec.1]; simp [upd_ne _ _ _ i hij],
            by rw [hrec.2]; simp [upd_ne _ _ _ i hij]⟩
    · rw [if_neg h]
      exact ⟨rfl, rfl⟩

theorem runTimeoutOp_wf (op : TimeoutOp) (st : TimeoutState) (now : Int)
    (st' : TimeoutState) (hwf : QueueWF st) (hvalid : TimeoutOpValid op)
    (h : runTimeoutOp op st now = some st') : QueueWF st' := by
  cases op with
  | opEnableAfter id d => exact enable_timeout_after_wf st id d now st' hwf hvalid h
  | opEnableAt id f => exact enable_timeout_at_wf st id f now st' hwf hvalid h
  | opEnableBatch ps => exact enable_timeouts_wf st ps now st' hwf hvalid h
  | opDisable id k => exact disable_timeout_wf st id k now st' hwf h
  | opDisableBatch ps => exact disable_timeouts_wf st ps now st' hwf h

theorem runTimeoutOps_wf (ops : List (TimeoutOp × Int)) :
    ∀ (st st' : TimeoutState), QueueWF st → (∀ p ∈ ops, TimeoutOpValid p.1) →
      runTimeoutOps ops st = some st' → QueueWF st' := by
  induction ops with
  | nil =>
    intro st st' hwf _ h
    unfold runTimeoutOps at h
    injection h with h
    subst h
    exact hwf
  | cons p rest ih =>
    obtain ⟨op, now⟩ := p
    intro st st' hwf hvalid h
    unfold runTimeoutOps at h
    cases hop : runTimeoutOp op st now with
    | none => rw [hop] at h; simp at h
    | some st1 =>
      rw [hop] at h
      exact ih st1 st'
        (runTimeoutOp_wf op st now st1 hwf (hvalid (op, now) (List.mem_cons_self _ rest)) hop)
        (fun q hq => hvalid q (List.mem_cons_of_mem _ hq)) h

/-! ## Claims about the timeout multiplexer -/

/-- **C1** (counterexample): in a state whose user range is fully
registered, `RegisterTimeout(USER_TIMEOUT, h)` raises
`ERRCODE_CONFIGURATION_LIMIT_EXCEEDED` at `FATAL` severity — the backend
process terminates — not as an error recoverable by the caller. -/
theorem RegisterTimeout_exhausted_not_recoverable_cex :
    (RegisterTimeout regSaturated USER_TIMEOUT 7).2 =
      Except.error ⟨elevel.FATAL, sqlstate.configuration_limit_exceeded⟩ ∧
    elevel.FATAL ≠ elevel.ERROR := by
  exact ⟨rfl, by decide⟩

/-- **C1** (amended): when every id in the user range already has a
registered handler, `RegisterTimeout(USER_TIMEOUT, handler)` fails with
`ConfigLimitExceeded` raised at `FATAL` severity (terminating the process
rather than returning control to the caller), and no timeout slot's handler
is modified (the returned state is the argument state). -/
theorem RegisterTimeout_user_range_exhausted_fatal (st : TimeoutState) (handler : Nat)
    (hfull : ∀ j, j < GP_PARALLEL_RETRIEVE_CURSOR_CHECK_TIMEOUT → USER_TIMEOUT ≤ j →
      (st.all_timeouts j).timeout_handler ≠ none) :
    RegisterTimeout st USER_TIMEOUT handler =
      (st, Except.error ⟨elevel.FATAL, sqlstate.configuration_limit_exceeded⟩) := by
  unfold RegisterTimeout
  rw [if_pos (by decide)]
  have hnone :
      (List.range' USER_TIMEOUT
          (GP_PARALLEL_RETRIEVE_CURSOR_CHECK_TIMEOUT - USER_TIMEOUT)).find?
        (fun j => (st.all_timeouts j).timeout_handler.isNone) = none := by
    rw [List.find?_eq_none]
    intro x hx
    have hmem := List.mem_range'_1.mp hx
    have hx1 : x < GP_PARALLEL_RETRIEVE_CURSOR_CHECK_TIMEOUT := by
      have := hmem.2
      simp only [USER_TIMEOUT, GP_PARALLEL_RETRIEVE_CURSOR_CHECK_TIMEOUT] at *
      omega
    have := hfull x hx1 hmem.1
    simp only [Option.isNone_iff_eq_none]
    intro hc
    exact this hc
  rw [hnone]

theorem RegisterTimeout_user_range_exhausted_fatal_witness :
    RegisterTimeout regSaturated USER_TIMEOUT 7 =
      (regSaturated, Except.error ⟨elevel.FATAL, sqlstate.configuration_limit_exceeded⟩) :=
  RegisterTimeout_user_range_exhausted_fatal regSaturated 7 (by decide)

/-- **C2**: after any sequence of `enable_timeout_after`, `enable_timeout_at`,
`enable_timeouts`, `disable_timeout` and `disable_timeouts` operations from
the initialized state, each of which returned (no FATAL exit), the active
queue is sorted strictly ascending by `(fin_time, id)` and every reason's
`active` flag holds iff its id occupies exactly one queue slot (the
`QueueWF` invariant). -/
theorem active_queue_invariant_after_ops (ops : List (TimeoutOp × Int)) (st' : TimeoutState)
    (hvalid : ∀ p ∈ ops, TimeoutOpValid p.1)
    (h : runTimeoutOps ops InitializeTimeouts = some st') : QueueWF st' :=
  runTimeoutOps_wf ops InitializeTimeouts st' (by decide) hvalid h

theorem active_queue_invariant_after_ops_witness :
    ∃ st', runTimeoutOps
      [(TimeoutOp.opEnableAfter 3 5, 100), (TimeoutOp.opEnableAt 2 40, 110),
       (TimeoutOp.opDisable 3 false, 120)] InitializeTimeouts = some st' ∧
      QueueWF st' := by
  have hs : (runTimeoutOps
      [(TimeoutOp.opEnableAfter 3 5, 100), (TimeoutOp.opEnableAt 2 40, 110),
       (TimeoutOp.opDisable 3 false, 120)] InitializeTimeouts).isSome = true := by decide
  exact ⟨_, (Option.some_get hs).symm,
    active_queue_invariant_after_ops _ _ (by decide) (Option.some_get hs).symm⟩

/-- **C7**: within one expiry-dispatch pass, the fired reasons (in firing
order) are strictly increasing in the `(fin_time, id)` key of the pre-pass
state — so handlers run in nondecreasing `fin_time` order with ties broken
by ascending id, and no activation fires twice in the pass. -/
theorem dispatch_fires_in_nondecreasing_key_order (st : TimeoutState) (now : Int)
    (nows : List Int) (hwf : QueueWF st) :
    ((handle_sig_alarm st now nows).2).Pairwise
      (fun a b => keyLT (qkey st.all_timeouts a) (qkey st.all_timeouts b)) ∧
    ((handle_sig_alarm st now nows).2).Nodup := by
  have key : ∀ tr : List Nat,
      tr.Pairwise (fun a b => keyLT (qkey st.all_timeouts a) (qkey st.all_timeouts b)) →
      tr.Nodup := by
    intro tr hp
    refine hp.imp ?_
    intro a b hab heq
    subst heq
    exact keyLT_irrefl _ hab
  unfold handle_sig_alarm
  by_cases hen : st.alarm_enabled
  · rw [if_pos hen]
    dsimp only
    by_cases hlen : st.active_queue.length > 0
    · rw [if_pos hlen]
      dsimp only
      have happ := dispatchLoop_trace_append st.active_queue st.all_timeouts now nows
      have hpq := hwf.2.2.2
      rw [← happ] at hpq
      have hptr := (List.pairwise_append.mp hpq).1
      exact ⟨hptr, key _ hptr⟩
    · rw [if_neg hlen]
      exact ⟨List.Pairwise.nil, List.nodup_nil⟩
  · rw [if_neg hen]
    exact ⟨List.Pairwise.nil, List.nodup_nil⟩

theorem dispatch_fires_in_nondecreasing_key_order_witness :
    ((handle_sig_alarm wstateTwoDue 100 []).2).Pairwise
      (fun a b => keyLT (qkey wstateTwoDue.all_timeouts a) (qkey wstateTwoDue.all_timeouts b)) ∧
    ((handle_sig_alarm wstateTwoDue 100 []).2).Nodup :=
  dispatch_fires_in_nondecreasing_key_order wstateTwoDue 100 [] (by decide)

/-- **C8**: enabling an already-active reason reschedules it: afterwards
its id occupies exactly one queue slot, in the queue position its new
`(fin_time, id)` key dictates (the queue stays strictly sorted by that key
while all other reasons' entries are preserved in order), its indicator is
cleared, `start_time` is stamped with the clock reading, and `fin_time` is
the requested deadline — for `enable_timeout_at` and, with
`fin_time = now + delay_ms·1000`, for `enable_timeout_after`. -/
theorem enable_timeout_reschedules_active_reason (st : TimeoutState) (id : Nat)
    (fin_time delay_ms now : Int) (hwf : QueueWF st) (hid : id < MAX_TIMEOUTS)
    (hact : (st.all_timeouts id).active = true) :
    (∃ st', enable_timeout_at st id fin_time now = some st' ∧
       QueueWF st' ∧ st'.active_queue.count id = 1 ∧
       (st'.all_timeouts id).indicator = false ∧
       (st'.all_timeouts id).start_time = now ∧
       (st'.all_timeouts id).fin_time = fin_time ∧
       st'.active_queue.filter (fun a => a != id) =
         st.active_queue.filter (fun a => a != id)) ∧
    (∃ st', enable_timeout_after st id delay_ms now = some st' ∧
       QueueWF st' ∧ st'.active_queue.count id = 1 ∧
       (st'.all_timeouts id).indicator = false ∧
       (st'.all_timeouts id).start_time = now ∧
       (st'.all_timeouts id).fin_time = TimestampTzPlusMilliseconds now delay_ms ∧
       st'.active_queue.filter (fun a => a != id) =
         st.active_queue.filter (fun a => a != id)) := by
  have _ := hact
  constructor
  · obtain ⟨st1, heq, hwf1, hall_id, _, hcount, hfilter, _⟩ :=
      enable_timeout_spec { st with alarm_enabled := false } id now fin_time
        (QueueWF_disable_flag st hwf) hid
    refine ⟨schedule_alarm st1 now, ?_, QueueWF_schedule_alarm st1 now hwf1, ?_, ?_, ?_, ?_, ?_⟩
    · unfold enable_timeout_at
      dsimp only
      rw [heq]
    · rw [(schedule_alarm_state st1 now).2, hcount]
    · rw [(schedule_alarm_state st1 now).1, hall_id]
    · rw [(schedule_alarm_state st1 now).1, hall_id]
    · rw [(schedule_alarm_state st1 now).1, hall_id]
    · rw [(schedule_alarm_state st1 now).2, hfilter]
  · obtain ⟨st1, heq, hwf1, hall_id, _, hcount, hfilter, _⟩ :=
      enable_timeout_spec { st with alarm_enabled := false } id now
        (TimestampTzPlusMilliseconds now delay_ms) (QueueWF_disable_flag st hwf) hid
    refine ⟨schedule_alarm st1 now, ?_, QueueWF_schedule_alarm st1 now hwf1, ?_, ?_, ?_, ?_, ?_⟩
    · unfold enable_timeout_after
      dsimp only
      rw [heq]
    · rw [(schedule_alarm_state st1 now).2, hcount]
    · rw [(schedule_alarm_state st1 now).1, hall_id]
    · rw [(schedule_alarm_state st1 now).1, hall_id]
    · rw [(schedule_alarm_state st1 now).1, hall_id]
    · rw [(schedule_alarm_state st1 now).2, hfilter]

theorem enable_timeout_reschedules_active_reason_witness :
    ∃ st', enable_timeout_at wstateTwoDue 1 75 60 = some st' ∧
      QueueWF st' ∧ st'.active_queue.count 1 = 1 ∧
      (st'.all_timeouts 1).indicator = false ∧
      (st'.all_timeouts 1).start_time = 60 ∧
      (st'.all_timeouts 1).fin_time = 75 ∧
      st'.active_queue.filter (fun a => a != 1) =
        wstateTwoDue.active_queue.filter (fun a => a != 1) :=
  (enable_timeout_reschedules_active_reason wstateTwoDue 1 75 0 60
    (by decide) (by decide) (by decide)).1

/-- **C9**: `get_timeout_indicator(id, reset)` returns `true` and (when
`reset`) clears the indicator iff the indicator was set, and returns
`false` leaving the state untouched otherwise; hence after a firing the
first reset-read returns `true` and every further one returns `false` until
the reason fires again. -/
theorem get_timeout_indicator_reset_semantics (st : TimeoutState) (id : Nat) :
    ((st.all_timeouts id).indicator = false →
      ∀ reset_indicator, get_timeout_indicator st id reset_indicator = (false, st)) ∧
    ((st.all_timeouts id).indicator = true →
      get_timeout_indicator st id false = (true, st) ∧
      ∃ st1, get_timeout_indicator st id true = (true, st1) ∧
        (st1.all_timeouts id).indicator = false ∧
        get_timeout_indicator st1 id true = (false, st1)) := by
  constructor
  · intro hind reset_indicator
    unfold get_timeout_indicator
    rw [if_neg (by simp [hind])]
  · intro hind
    refine ⟨?_, ?_⟩
    · unfold get_timeout_indicator
      rw [if_pos hind]
      simp
    · have hclr : get_timeout_indicator st id true =
          (true, { st with all_timeouts := upd st.all_timeouts id { st.all_timeouts id with indicator := false } }) := by
        unfold get_timeout_indicator
        rw [if_pos hind]
        rfl
      refine ⟨_, hclr, by simp, ?_⟩
      unfold get_timeout_indicator
      rw [if_neg (by simp)]

theorem get_timeout_indicator_reset_semantics_witness :
    get_timeout_indicator wstateInd 1 false = (true, wstateInd) ∧
    ∃ st1, get_timeout_indicator wstateInd 1 true = (true, st1) ∧
      (st1.all_timeouts 1).indicator = false ∧
      get_timeout_indicator st1 1 true = (false, st1) :=
  (get_timeout_indicator_reset_semantics wstateInd 1).2 (by decide)

/-- **C10**: right after `InitializeTimeouts` every reason's
`get_timeout_start_time` and `get_timeout_finish_time` return 0, and the
expiry dispatch (`handle_sig_alarm`) never changes any reason's
`start_time` or `fin_time` — after a firing they still return the values
stamped at the most recent activation. -/
theorem timeout_times_init_zero_and_dispatch_preserves :
    (∀ id, get_timeout_start_time InitializeTimeouts id = 0 ∧
      get_timeout_finish_time InitializeTimeouts id = 0) ∧
    (∀ (st : TimeoutState) (now : Int) (nows : List Int) (id : Nat),
      get_timeout_start_time (handle_sig_alarm st now nows).1 id =
        get_timeout_start_time st id ∧
      get_timeout_finish_time (handle_sig_alarm st now nows).1 id =
        get_timeout_finish_time st id) := by
  constructor
  · intro id
    exact ⟨rfl, rfl⟩
  · intro st now nows id
    unfold handle_sig_alarm
    by_cases hen : st.alarm_enabled
    · rw [if_pos hen]
      dsimp only
      by_cases hlen : st.active_queue.length > 0
      · rw [if_pos hlen]
        dsimp only
        unfold get_timeout_start_time get_timeout_finish_time
        rw [(schedule_alarm_state _ _).1]
        exact dispatchLoop_start_fin st.active_queue st.all_timeouts now nows id
      · rw [if_neg hlen]
        exact ⟨rfl, rfl⟩
    · rw [if_neg hen]
      exact ⟨rfl, rfl⟩

/-! ## Portal registry: basic lemmas -/

@[simp] theorem cleanCount_nil (n : String) : cleanCount n [] = 0 := rfl

theorem cleanCount_append (n : String) (ev1 ev2 : List PEvent) :
    cleanCount n (ev1 ++ ev2) = cleanCount n ev1 + cleanCount n ev2 :=
  List.countP_append _ _ _

theorem cleanCount_cons (n : String) (e : PEvent) (l : List PEvent) :
    cleanCount n (e :: l) = cleanCount n l + if e = PEvent.cleanupCalled n then 1 else 0 := by
  unfold cleanCount
  rw [List.countP_cons]
  by_cases h : e = PEvent.cleanupCalled n
  · rw [if_pos h]
    simp [h]
  · rw [if_neg h]
    simp [h]

theorem cleanCount_ite_nil (n : String) (c : Prop) [Decidable c] (l : List PEvent) :
    cleanCount n (if c then l else []) = if c then cleanCount n l else 0 := by
  split_ifs <;> rfl

@[simp] theorem lookupP_cons (m : String) (p : Portal) (rest : PortalTable) (n : String) :
    lookupP ((m, p) :: rest) n = if m = n then some p else lookupP rest n := rfl

theorem lookupP_eq_none (t : PortalTable) (n : String) (h : n ∉ keysOf t) :
    lookupP t n = none := by
  induction t with
  | nil => rfl
  | cons e rest ih =>
    obtain ⟨m, p⟩ := e
    have hm : m ≠ n := by
      intro hmn
      exact h (by simp [keysOf, hmn])
    have hrest : n ∉ keysOf rest := by
      intro hmem
      exact h (by simp [keysOf] at hmem ⊢; exact Or.inr hmem)
    rw [lookupP, if_neg hm]
    exact ih hrest

theorem hasCleanupSet_cons (m : String) (p : Portal) (rest : PortalTable) (n : String) :
    hasCleanupSet ((m, p) :: rest) n =
      if m = n then p.cleanup else hasCleanupSet rest n := by
  unfold hasCleanupSet
  rw [lookupP_cons]
  by_cases hm : m = n
  · rw [if_pos hm, if_pos hm]
  · rw [if_neg hm, if_neg hm]

theorem hasCleanupSet_eq_false (t : PortalTable) (n : String) (h : n ∉ keysOf t) :
    hasCleanupSet t n = false := by
  unfold hasCleanupSet
  rw [lookupP_eq_none t n h]

theorem CleanOK_refl (t : PortalTable) : CleanOK t t [] := by
  intro n
  refine ⟨by simp, fun _ => rfl, fun h => ⟨h, rfl⟩⟩

theorem CleanOK_trans {t t1 t2 : PortalTable} {ev1 ev2 : List PEvent}
    (h1 : CleanOK t t1 ev1) (h2 : CleanOK t1 t2 ev2) : CleanOK t t2 (ev1 ++ ev2) := by
  intro n
  obtain ⟨h1a, h1b, h1c⟩ := h1 n
  obtain ⟨h2a, h2b, h2c⟩ := h2 n
  rw [cleanCount_append]
  have hmid : cleanCount n ev1 ≥ 1 → cleanCount n ev2 = 0 := by
    intro hge
    have hset1 : hasCleanupSet t1 n = false := by
      cases hs : hasCleanupSet t1 n
      · rfl
      · have := (h1c hs).2
        omega
    exact h2b hset1
  refine ⟨?_, ?_, ?_⟩
  · rcases Nat.eq_zero_or_pos (cleanCount n ev1) with hz | hp
    · omega
    · have := hmid hp
      omega
  · intro hset
    have hc1 := h1b hset
    have hset1 : hasCleanupSet t1 n = false := by
      cases hs : hasCleanupSet t1 n
      · rfl
      · exact absurd ((h1c hs).1) (by simp [hset])
    have hc2 := h2b hset1
    omega
  · intro hset2
    obtain ⟨hset1, hc2⟩ := h2c hset2
    obtain ⟨hset0, hc1⟩ := h1c hset1
    exact ⟨hset0, by omega⟩

/-! ## Portal registry: the drop path -/

theorem portalDropBody_spec (isTopCommit : Bool) (n : String) (p : Portal)
    (hpin : p.portalPinned = false) (hact : p.status ≠ .PORTAL_ACTIVE) :
    portalDropBody isTopCommit n p =
      ((if p.cleanup then [PEvent.cleanupCalled n] else []) ++
       (if p.resQueueLocked then [PEvent.resUnlockPortal n] else []) ++
       (match p.cplan with | some c => [PEvent.planReleased c] | none => []) ++
       (match p.resowner with
        | some o =>
          if ¬ isTopCommit ∨ p.status = .PORTAL_FAILED then
            [PEvent.resourceRelease o .RESOURCE_RELEASE_BEFORE_LOCKS
               (decide (p.status ≠ .PORTAL_FAILED)),
             PEvent.resourceRelease o .RESOURCE_RELEASE_LOCKS
               (decide (p.status ≠ .PORTAL_FAILED)),
             PEvent.resourceRelease o .RESOURCE_RELEASE_AFTER_LOCKS
               (decide (p.status ≠ .PORTAL_FAILED)),
             PEvent.resourceDelete o]
          else []
        | none => []) ++
       (if p.holdStore then [PEvent.tuplestoreEnd n] else []) ++
       (if p.holdContext then [PEvent.holdContextDeleted n] else []) ++
       [PEvent.heapDeleted n], none) := by
  cases hcl : p.cleanup <;> cases hc : p.cplan <;>
    simp [portalDropBody, fireCleanup, PortalReleaseCachedPlan, hcl, hc, hpin, hact]

theorem portalDropBody_cleanEv (isTopCommit : Bool) (n : String) (p : Portal) :
    cleanCount n (portalDropBody isTopCommit n p).1 ≤ 1 ∧
    (p.cleanup = false → cleanCount n (portalDropBody isTopCommit n p).1 = 0) ∧
    (∀ m, m ≠ n → cleanCount m (portalDropBody isTopCommit n p).1 = 0) := by
  by_cases hcond : p.portalPinned = true ∨ p.status = .PORTAL_ACTIVE
  · unfold portalDropBody
    rw [if_pos hcond]
    simp
  · push_neg at hcond
    rw [portalDropBody_spec isTopCommit n p (by simpa using hcond.1) hcond.2]
    dsimp only
    refine ⟨?_, ?_, ?_⟩
    · cases p.cleanup <;> cases p.cplan <;> cases p.resowner <;>
        simp [cleanCount_append, cleanCount_ite_nil, cleanCount_cons, cleanCount_nil]
    · intro hcl
      rw [hcl]
      cases p.cplan <;> cases p.resowner <;>
        simp [cleanCount_append, cleanCount_ite_nil, cleanCount_cons, cleanCount_nil]
    · intro m hm
      cases p.cleanup <;> cases p.cplan <;> cases p.resowner <;>
        simp [cleanCount_append, cleanCount_ite_nil, cleanCount_cons, cleanCount_nil,
          hm, Ne.symm hm]

/-! ## Claims about the portal drop path -/

/-- **C5**: dropping a pinned portal, or one in ACTIVE state, raises
`InvalidCursorState` and changes nothing: the table (hence the portal's
entry with all its fields) is exactly as before and no external call was
made. -/
theorem drop_pinned_or_active_rejected (t : PortalTable) (n : String) (p : Portal)
    (isTopCommit : Bool) (hlook : lookupP t n = some p)
    (hcond : p.portalPinned = true ∨ p.status = .PORTAL_ACTIVE) :
    portalDropOp n isTopCommit t =
      (t, [], some ⟨.ERROR, .invalid_cursor_state⟩) := by
  have hbody : portalDropBody isTopCommit n p = ([], some ⟨.ERROR, .invalid_cursor_state⟩) := by
    unfold portalDropBody
    rw [if_pos hcond]
  have hstep : dropStep isTopCommit n p =
      (some p, [], some ⟨.ERROR, .invalid_cursor_state⟩) := by
    unfold dropStep
    rw [hbody]
  revert hlook
  induction t with
  | nil => intro hlook; simp [lookupP] at hlook
  | cons e rest ih =>
    obtain ⟨m, q⟩ := e
    intro hlook
    rw [lookupP_cons] at hlook
    unfold portalDropOp
    rw [applyAt.eq_def]
    dsimp only
    by_cases hm : m = n
    · rw [if_pos hm] at hlook
      injection hlook with hlook
      subst hlook
      rw [if_pos hm, hstep]
    · rw [if_neg hm] at hlook
      rw [if_neg hm]
      have hrec := ih hlook
      unfold portalDropOp at hrec
      rw [hrec]

theorem drop_pinned_or_active_rejected_witness :
    portalDropOp "p" false [("p", cexPinnedHold)] =
      ([("p", cexPinnedHold)], [], some ⟨.ERROR, .invalid_cursor_state⟩) :=
  drop_pinned_or_active_rejected [("p", cexPinnedHold)] "p" cexPinnedHold false
    (by decide) (by decide)

/-- **C6**: when a droppable portal still has a resource owner, `PortalDrop`
performs the three-phase release (`BEFORE_LOCKS`, `LOCKS`, `AFTER_LOCKS`)
followed by the owner deletion iff `isTopCommit` is false or the portal is
FAILED — with the `isCommit` flag of every phase equal to
`status ≠ PORTAL_FAILED` — and makes no resource-owner call otherwise. -/
theorem drop_resowner_release_iff (isTopCommit : Bool) (n : String) (p : Portal) (o : Nat)
    (hpin : p.portalPinned = false) (hact : p.status ≠ .PORTAL_ACTIVE)
    (hro : p.resowner = some o) :
    (portalDropBody isTopCommit n p).2 = none ∧
    (isTopCommit = false ∨ p.status = .PORTAL_FAILED →
      (portalDropBody isTopCommit n p).1.filter isResourceEvent =
        [PEvent.resourceRelease o .RESOURCE_RELEASE_BEFORE_LOCKS
           (decide (p.status ≠ .PORTAL_FAILED)),
         PEvent.resourceRelease o .RESOURCE_RELEASE_LOCKS
           (decide (p.status ≠ .PORTAL_FAILED)),
         PEvent.resourceRelease o .RESOURCE_RELEASE_AFTER_LOCKS
           (decide (p.status ≠ .PORTAL_FAILED)),
         PEvent.resourceDelete o]) ∧
    (isTopCommit = true ∧ p.status ≠ .PORTAL_FAILED →
      (portalDropBody isTopCommit n p).1.filter isResourceEvent = []) := by
  rw [portalDropBody_spec isTopCommit n p hpin hact, hro]
  refine ⟨rfl, ?_, ?_⟩
  · intro hcond
    have hcond' : ¬ isTopCommit = true ∨ p.status = .PORTAL_FAILED := by
      rcases hcond with h | h
      · exact Or.inl (by simp [h])
      · exact Or.inr h
    dsimp only
    rw [if_pos hcond']
    cases p.cleanup <;> cases p.resQueueLocked <;> cases p.cplan <;>
      cases p.holdStore <;> cases p.holdContext <;>
      simp [isResourceEvent]
  · rintro ⟨htop, hfail⟩
    subst htop
    dsimp only
    rw [if_neg (show ¬ (¬ (true : Bool) = true ∨ p.status = .PORTAL_FAILED) by
      simp [hfail])]
    cases p.cleanup <;> cases p.resQueueLocked <;> cases p.cplan <;>
      cases p.holdStore <;> cases p.holdContext <;>
      simp [isResourceEvent]

theorem drop_resowner_release_iff_witness :
    (portalDropBody false "c" wOwnedPortal).1.filter isResourceEvent =
      [PEvent.resourceRelease 7 .RESOURCE_RELEASE_BEFORE_LOCKS
         (decide (wOwnedPortal.status ≠ .PORTAL_FAILED)),
       PEvent.resourceRelease 7 .RESOURCE_RELEASE_LOCKS
         (decide (wOwnedPortal.status ≠ .PORTAL_FAILED)),
       PEvent.resourceRelease 7 .RESOURCE_RELEASE_AFTER_LOCKS
         (decide (wOwnedPortal.status ≠ .PORTAL_FAILED)),
       PEvent.resourceDelete 7] :=
  (drop_resowner_release_iff false "c" wOwnedPortal 7 (by decide) (by decide)
    (by decide)).2.1 (Or.inl rfl)

/-! ## Portal registry: PreCommit -/

theorem PortalReleaseCachedPlan_fst_portalPinned (p : Portal) :
    (PortalReleaseCachedPlan p).1.portalPinned = p.portalPinned := by
  unfold PortalReleaseCachedPlan
  cases p.cplan <;> rfl

theorem PortalReleaseCachedPlan_fst_status (p : Portal) :
    (PortalReleaseCachedPlan p).1.status = p.status := by
  unfold PortalReleaseCachedPlan
  cases p.cplan <;> rfl

theorem PortalReleaseCachedPlan_fst_cleanup (p : Portal) :
    (PortalReleaseCachedPlan p).1.cleanup = p.cleanup := by
  unfold PortalReleaseCachedPlan
  cases p.cplan <;> rfl

theorem preCommitLoop_err (isPrepare : Bool) (fuel : Nat) (t : PortalTable) (changed : Bool)
    (e : PGError) (hf : 0 < fuel) (h : (preCommitPass isPrepare t).err = some e) :
    preCommitLoop isPrepare fuel t changed =
      ⟨(preCommitPass isPrepare t).table, (preCommitPass isPrepare t).events, some e,
       changed || (preCommitPass isPrepare t).changed⟩ := by
  cases fuel with
  | zero => omega
  | succ f =>
    rw [preCommitLoop]
    dsimp only
    rw [h]

theorem preCommitLoop_done (isPrepare : Bool) (fuel : Nat) (t : PortalTable) (changed : Bool)
    (hf : 0 < fuel) (h1 : (preCommitPass isPrepare t).err = none)
    (h2 : (preCommitPass isPrepare t).restart = false) :
    preCommitLoop isPrepare fuel t changed =
      ⟨(preCommitPass isPrepare t).table, (preCommitPass isPrepare t).events, none,
       changed || (preCommitPass isPrepare t).changed⟩ := by
  cases fuel with
  | zero => omega
  | succ f =>
    rw [preCommitLoop]
    dsimp only
    rw [h1, h2]
    dsimp only
    rw [if_neg (by simp)]

theorem preCommitLoop_restart (isPrepare : Bool) (fuel : Nat) (t : PortalTable)
    (changed : Bool) (h1 : (preCommitPass isPrepare t).err = none)
    (h2 : (preCommitPass isPrepare t).restart = true) :
    preCommitLoop isPrepare (fuel + 1) t changed =
      ⟨(preCommitLoop isPrepare fuel (preCommitPass isPrepare t).table
          (changed || (preCommitPass isPrepare t).changed)).table,
       (preCommitPass isPrepare t).events ++
         (preCommitLoop isPrepare fuel (preCommitPass isPrepare t).table
           (changed || (preCommitPass isPrepare t).changed)).events,
       (preCommitLoop isPrepare fuel (preCommitPass isPrepare t).table
         (changed || (preCommitPass isPrepare t).changed)).err,
       (preCommitLoop isPrepare fuel (preCommitPass isPrepare t).table
         (changed || (preCommitPass isPrepare t).changed)).changed⟩ := by
  rw [preCommitLoop]
  dsimp only
  rw [h1, h2]
  dsimp only
  rw [if_pos rfl]

/-! ## Claims about PreCommit's holdable-cursor handling -/

/-- **C3** (counterexample): (a) a *pinned* holdable READY portal created in
the running transaction makes `PreCommit(is_prepare=true)` fail with the
"cannot commit while a portal is pinned" error, not `FeatureNotSupported`;
(b) for a holdable READY portal whose statements were not installed from a
cached plan, the materialization leaves `stmts` as they were — it does not
null them. -/
theorem precommit_holdable_claim_cex :
    ((PreCommit_Portals true [("c", cexPinnedHold)]).err =
        some ⟨.ERROR, .internal_error⟩ ∧
      (PreCommit_Portals true [("c", cexPinnedHold)]).err ≠
        some ⟨.ERROR, .feature_not_supported⟩) ∧
    (Option.map (fun q => q.stmts)
        (lookupP (PreCommit_Portals false [("c", cexNoPlanHold)]).table "c") =
          some [5] ∧
      ([5] : List Nat) ≠ []) := by
  exact ⟨⟨by decide, by decide⟩, ⟨by decide, by decide⟩⟩

/-- **C3** (amended): for every *non-pinned* portal whose `cursorOptions`
include `HOLD`, whose `createSubid` is a live (non-invalid) id, and whose
status is READY when `PreCommit_Portals` runs (here: as the portal under
commit), `is_prepare=true` raises `FeatureNotSupported` leaving the table
untouched, while `is_prepare=false` creates the portal's hold store,
invokes `PersistHoldablePortal` on it exactly once, releases the cached
plan if one is present (nulling `cplan`, and `stmts` when a plan was
present), nulls `resowner`, sets `createSubid` and `activeSubid` to the
invalid sentinel, leaves the portal in the table, and returns
`changed = true`. -/
theorem precommit_materializes_holdable (n : String) (p : Portal)
    (hhold : p.cursorOptions &&& CURSOR_OPT_HOLD ≠ 0)
    (hsub : p.createSubid ≠ InvalidSubTransactionId)
    (hstatus : p.status = .PORTAL_READY)
    (hpin : p.portalPinned = false) :
    PreCommit_Portals true [(n, p)] =
      ⟨[(n, p)], [], some ⟨.ERROR, .feature_not_supported⟩, false⟩ ∧
    ∃ p', PreCommit_Portals false [(n, p)] =
        ⟨[(n, p')],
         PEvent.persistCalled n ::
           (match p.cplan with | some c => [PEvent.planReleased c] | none => []),
         none, true⟩ ∧
      p'.holdStore = true ∧ p'.holdContext = true ∧
      p'.cplan = none ∧ (p.cplan ≠ none → p'.stmts = []) ∧
      p'.resowner = none ∧
      p'.createSubid = InvalidSubTransactionId ∧
      p'.activeSubid = InvalidSubTransactionId := by
  have hnp : ¬ p.portalPinned = true := by simp [hpin]
  have hna : ¬ p.status = .PORTAL_ACTIVE := by simp [hstatus]
  have hc3 : p.cursorOptions &&& CURSOR_OPT_HOLD ≠ 0 ∧
      p.createSubid ≠ InvalidSubTransactionId ∧ p.status = .PORTAL_READY :=
    ⟨hhold, hsub, hstatus⟩
  have hlen : 0 < (List.filter (fun e => decide (e.2.createSubid ≠ InvalidSubTransactionId))
      [(n, p)]).length := by
    simp [List.filter_cons, hsub]
  constructor
  · -- is_prepare = true
    have hpass : preCommitPass true [(n, p)] =
        ⟨[(n, p)], [], some ⟨.ERROR, .feature_not_supported⟩, false, false⟩ := by
      rw [preCommitPass.eq_def]
      dsimp only
      rw [if_neg hnp, if_neg hna, if_pos hc3, if_pos rfl]
    unfold PreCommit_Portals
    rw [preCommitLoop_err true _ _ _ _ (by omega) (by rw [hpass])]
    rw [hpass]
    rfl
  · -- is_prepare = false: the freeze branch
    have hpass2 : preCommitPass false [(n, p)] =
        ⟨[(n, freezeHeld p)],
         PEvent.persistCalled n :: (PortalReleaseCachedPlan (PortalCreateHoldStore p)).2,
         none, true, true⟩ := by
      rw [preCommitPass.eq_def]
      dsimp only
      rw [if_neg hnp, if_neg hna, if_pos hc3, if_neg (show ¬ (false = true) by simp)]
      rfl
    have hfrozenPinned : ¬ (freezeHeld p).portalPinned = true := by
      simpa [freezeHeld, PortalReleaseCachedPlan_fst_portalPinned,
        PortalCreateHoldStore] using hnp
    have hfrozenActive : ¬ (freezeHeld p).status = .PORTAL_ACTIVE := by
      simpa [freezeHeld, PortalReleaseCachedPlan_fst_status,
        PortalCreateHoldStore] using hna
    have hfrozenSub : (freezeHeld p).createSubid = InvalidSubTransactionId := rfl
    have hpass3 : preCommitPass false [(n, freezeHeld p)] =
        ⟨[(n, freezeHeld p)], [], none, false, false⟩ := by
      rw [preCommitPass.eq_def]
      dsimp only
      rw [if_neg hfrozenPinned, if_neg hfrozenActive]
      rw [if_neg (by
          rintro ⟨-, habs, -⟩
          exact habs hfrozenSub)]
      rw [if_pos hfrozenSub]
      rw [preCommitPass.eq_def]
    unfold PreCommit_Portals
    rw [preCommitLoop_restart false _ _ _ (by rw [hpass2]) (by rw [hpass2])]
    rw [hpass2]
    dsimp only
    rw [preCommitLoop_done false _ _ _ hlen (by rw [hpass3]) (by rw [hpass3])]
    rw [hpass3]
    dsimp only
    have hev : (PortalReleaseCachedPlan (PortalCreateHoldStore p)).2 =
        (match p.cplan with | some c => [PEvent.planReleased c] | none => []) := by
      cases hc : p.cplan <;> simp [PortalReleaseCachedPlan, PortalCreateHoldStore, hc]
    refine ⟨freezeHeld p, by simp [hev], ?_, ?_, ?_, ?_, rfl, rfl, rfl⟩
    · cases hc : p.cplan <;>
        simp [freezeHeld, PortalReleaseCachedPlan, PortalCreateHoldStore, hc]
    · cases hc : p.cplan <;>
        simp [freezeHeld, PortalReleaseCachedPlan, PortalCreateHoldStore, hc]
    · cases hc : p.cplan <;>
        simp [freezeHeld, PortalReleaseCachedPlan, PortalCreateHoldStore, hc]
    · intro hne
      cases hc : p.cplan with
      | none => exact absurd hc hne
      | some c => simp [freezeHeld, PortalReleaseCachedPlan, PortalCreateHoldStore, hc]

theorem precommit_materializes_holdable_witness :
    PreCommit_Portals true [("c", wHoldPortal)] =
      ⟨[("c", wHoldPortal)], [], some ⟨.ERROR, .feature_not_supported⟩, false⟩ ∧
    ∃ p', PreCommit_Portals false [("c", wHoldPortal)] =
        ⟨[("c", p')],
         PEvent.persistCalled "c" ::
           (match wHoldPortal.cplan with
            | some c => [PEvent.planReleased c] | none => []),
         none, true⟩ ∧
      p'.holdStore = true ∧ p'.holdContext = true ∧
      p'.cplan = none ∧ (wHoldPortal.cplan ≠ none → p'.stmts = []) ∧
      p'.resowner = none ∧
      p'.createSubid = InvalidSubTransactionId ∧
      p'.activeSubid = InvalidSubTransactionId :=
  precommit_materializes_holdable "c" wHoldPortal (by decide) (by decide)
    (by decide) (by decide)

/-! ## Portal registry: the cleanup discipline -/

theorem fireCleanup_fst_cleanup (n : String) (p : Portal) :
    (fireCleanup n p).1.cleanup = false := by
  unfold fireCleanup
  cases hcl : p.cleanup <;> simp [hcl]

theorem cleanCount_fireCleanup_le (n : String) (p : Portal) :
    cleanCount n (fireCleanup n p).2 ≤ 1 := by
  unfold fireCleanup
  cases hcl : p.cleanup <;> simp [cleanCount_cons, cleanCount_nil]

theorem cleanCount_fireCleanup_of_false (n : String) (p : Portal) (h : p.cleanup = false) :
    cleanCount n (fireCleanup n p).2 = 0 := by
  unfold fireCleanup
  rw [h]
  simp

theorem cleanCount_fireCleanup_ne (n m : String) (p : Portal) (h : m ≠ n) :
    cleanCount m (fireCleanup n p).2 = 0 := by
  unfold fireCleanup
  cases hcl : p.cleanup <;> simp [cleanCount_cons, cleanCount_nil, Ne.symm h]

theorem hasCleanupSet_head (m : String) (q : Portal) (rest : PortalTable) :
    hasCleanupSet ((m, q) :: rest) m = q.cleanup := by
  rw [hasCleanupSet_cons, if_pos rfl]

theorem hasCleanupSet_ne_head (m : String) (q : Portal) (rest : PortalTable) (n : String)
    (h : m ≠ n) : hasCleanupSet ((m, q) :: rest) n = hasCleanupSet rest n := by
  rw [hasCleanupSet_cons, if_neg h]

theorem entrywise_cleanOK (f : String → Portal → Option Portal × List PEvent × Option PGError)
    (hf : EntryCleanOK f) :
    ∀ t : PortalTable, (keysOf t).Nodup →
      CleanOK t (entrywise f t).1 (entrywise f t).2.1 ∧
      List.Sublist (keysOf (entrywise f t).1) (keysOf t) := by
  intro t
  induction t with
  | nil =>
    intro _
    exact ⟨CleanOK_refl [], List.Sublist.refl []⟩
  | cons e rest ih =>
    obtain ⟨m, p⟩ := e
    intro hnd
    have hnd' : m ∉ keysOf rest ∧ (keysOf rest).Nodup := by
      have : (m :: keysOf rest).Nodup := by simpa [keysOf] using hnd
      exact List.nodup_cons.mp this
    obtain ⟨hmrest, hndrest⟩ := hnd'
    obtain ⟨ha, hb, hcnd, hd⟩ := hf m p
    rw [entrywise.eq_def]
    dsimp only
    rcases hfp : f m p with ⟨op', ev0, err0⟩
    rw [hfp] at ha hb hcnd hd
    dsimp only at ha hb hcnd hd
    cases err0 with
    | some e0 =>
      cases op' with
      | some p' =>
        dsimp only
        refine ⟨?_, by simp [keysOf]⟩
        intro q
        by_cases hq : q = m
        · subst hq
          refine ⟨ha, ?_, ?_⟩
          · intro hset
            rw [hasCleanupSet_head] at hset
            exact hb hset
          · intro hset'
            rw [hasCleanupSet_head] at hset'
            obtain ⟨hpc, hc0⟩ := hcnd p' rfl hset'
            rw [hasCleanupSet_head]
            exact ⟨hpc, hc0⟩
        · have hzero := hd q hq
          refine ⟨by omega, fun _ => hzero, ?_⟩
          intro hset'
          rw [hasCleanupSet_ne_head m p' rest q (fun h => hq h.symm)] at hset'
          rw [hasCleanupSet_ne_head m p rest q (fun h => hq h.symm)]
          exact ⟨hset', hzero⟩
      | none =>
        dsimp only
        constructor
        · intro q
          by_cases hq : q = m
          · subst hq
            refine ⟨ha, ?_, ?_⟩
            · intro hset
              rw [hasCleanupSet_head] at hset
              exact hb hset
            · intro hset'
              rw [hasCleanupSet_eq_false rest q hmrest] at hset'
              exact absurd hset' (by simp)
          · have hzero := hd q hq
            refine ⟨by omega, fun _ => hzero, ?_⟩
            intro hset'
            rw [hasCleanupSet_ne_head m p rest q (fun h => hq h.symm)]
            exact ⟨hset', hzero⟩
        · simpa [keysOf] using List.sublist_cons_self m (List.map Prod.fst rest)
    | none =>
      obtain ⟨ihc, ihs⟩ := ih hndrest
      have hc1m : cleanCount m (entrywise f rest).2.1 = 0 :=
        (ihc m).2.1 (hasCleanupSet_eq_false rest m hmrest)
      cases op' with
      | some p' =>
        dsimp only
        constructor
        · intro q
          rw [cleanCount_append]
          by_cases hq : q = m
          · subst hq
            refine ⟨by omega, ?_, ?_⟩
            · intro hset
              rw [hasCleanupSet_head] at hset
              rw [hb hset, hc1m]
            · intro hset'
              rw [hasCleanupSet_head] at hset'
              obtain ⟨hpc, hc0⟩ := hcnd p' rfl hset'
              rw [hasCleanupSet_head]
              exact ⟨hpc, by omega⟩
          · have hzero := hd q hq
            have hrq := ihc q
            refine ⟨by have := hrq.1; omega, ?_, ?_⟩
            · intro hset
              rw [hasCleanupSet_ne_head m p rest q (fun h => hq h.symm)] at hset
              rw [hzero, hrq.2.1 hset]
            · intro hset'
              rw [hasCleanupSet_ne_head m p' _ q (fun h => hq h.symm)] at hset'
              obtain ⟨hrest, hc0⟩ := hrq.2.2 hset'
              rw [hasCleanupSet_ne_head m p rest q (fun h => hq h.symm)]
              exact ⟨hrest, by omega⟩
        · simpa [keysOf] using List.Sublist.cons₂ m (by simpa [keysOf] using ihs)
      | none =>
        dsimp only
        constructor
        · intro q
          rw [cleanCount_append]
          by_cases hq : q = m
          · subst hq
            refine ⟨by omega, ?_, ?_⟩
            · intro hset
              rw [hasCleanupSet_head] at hset
              rw [hb hset, hc1m]
            · intro hset'
              have hnotin : q ∉ keysOf (entrywise f rest).1 :=
                fun hmem => hmrest (ihs.subset hmem)
              rw [hasCleanupSet_eq_false _ q hnotin] at hset'
              exact absurd hset' (by simp)
          · have hzero := hd q hq
            have hrq := ihc q
            refine ⟨by have := hrq.1; omega, ?_, ?_⟩
            · intro hset
              rw [hasCleanupSet_ne_head m p rest q (fun h => hq h.symm)] at hset
              rw [hzero, hrq.2.1 hset]
            · intro hset'
              obtain ⟨hrest, hc0⟩ := hrq.2.2 hset'
              rw [hasCleanupSet_ne_head m p rest q (fun h => hq h.symm)]
              exact ⟨hrest, by omega⟩
        · exact List.Sublist.trans ihs
            (by simpa [keysOf] using List.sublist_cons_self m (List.map Prod.fst rest))

/-- The per-portal discipline required of an `applyAt n0` step. -/
def AtCleanOK (n0 : String) (f : Portal → Option Portal × List PEvent × Option PGError) : Prop :=
  ∀ p : Portal,
    cleanCount n0 (f p).2.1 ≤ 1 ∧
    (p.cleanup = false → cleanCount n0 (f p).2.1 = 0) ∧
    (∀ p', (f p).1 = some p' → p'.cleanup = true →
      p.cleanup = true ∧ cleanCount n0 (f p).2.1 = 0) ∧
    (∀ m, m ≠ n0 → cleanCount m (f p).2.1 = 0)

theorem applyAt_cleanOK (n0 : String)
    (f : Portal → Option Portal × List PEvent × Option PGError) (hf : AtCleanOK n0 f) :
    ∀ t : PortalTable, (keysOf t).Nodup →
      CleanOK t (applyAt n0 f t).1 (applyAt n0 f t).2.1 ∧
      List.Sublist (keysOf (applyAt n0 f t).1) (keysOf t) := by
  intro t
  induction t with
  | nil =>
    intro _
    exact ⟨CleanOK_refl [], List.Sublist.refl []⟩
  | cons e rest ih =>
    obtain ⟨m, p⟩ := e
    intro hnd
    have hnd' : m ∉ keysOf rest ∧ (keysOf rest).Nodup := by
      have : (m :: keysOf rest).Nodup := by simpa [keysOf] using hnd
      exact List.nodup_cons.mp this
    obtain ⟨hmrest, hndrest⟩ := hnd'
    rw [applyAt.eq_def]
    dsimp only
    by_cases hm : m = n0
    · rw [if_pos hm]
      obtain ⟨ha, hb, hcnd, hd⟩ := hf p
      rcases hfp : f p with ⟨op', ev0, err0⟩
      rw [hfp] at ha hb hcnd hd
      dsimp only at ha hb hcnd hd
      cases op' with
      | some p' =>
        dsimp only
        refine ⟨?_, by simp [keysOf]⟩
        intro q
        by_cases hq : q = m
        · subst hq
          subst hm
          refine ⟨ha, ?_, ?_⟩
          · intro hset
            rw [hasCleanupSet_head] at hset
            exact hb hset
          · intro hset'
            rw [hasCleanupSet_head] at hset'
            obtain ⟨hpc, hc0⟩ := hcnd p' rfl hset'
            rw [hasCleanupSet_head]
            exact ⟨hpc, hc0⟩
        · have hzero := hd q (fun h => hq (h.trans hm.symm))
          refine ⟨by omega, fun _ => hzero, ?_⟩
          intro hset'
          rw [hasCleanupSet_ne_head m p' rest q (fun h => hq h.symm)] at hset'
          rw [hasCleanupSet_ne_head m p rest q (fun h => hq h.symm)]
          exact ⟨hset', hzero⟩
      | none =>
        dsimp only
        constructor
        · intro q
          by_cases hq : q = m
          · subst hq
            subst hm
            refine ⟨ha, ?_, ?_⟩
            · intro hset
              rw [hasCleanupSet_head] at hset
              exact hb hset
            · intro hset'
              rw [hasCleanupSet_eq_false rest q hmrest] at hset'
              exact absurd hset' (by simp)
          · have hzero := hd q (fun h => hq (h.trans hm.symm))
            refine ⟨by omega, fun _ => hzero, ?_⟩
            intro hset'
            rw [hasCleanupSet_ne_head m p rest q (fun h => hq h.symm)]
            exact ⟨hset', hzero⟩
        · simpa [keysOf] using List.sublist_cons_self m (List.map Prod.fst rest)
    · rw [if_neg hm]
      dsimp only
      obtain ⟨ihc, ihs⟩ := ih hndrest
      constructor
      · intro q
        have hrq := ihc q
        by_cases hq : q = m
        · subst hq
          have hnotin : q ∉ keysOf (applyAt n0 f rest).1 :=
            fun hmem => hmrest (ihs.subset hmem)
          have hc0 : cleanCount q (applyAt n0 f rest).2.1 = 0 :=
            hrq.2.1 (hasCleanupSet_eq_false rest q hmrest)
          refine ⟨by omega, fun _ => hc0, ?_⟩
          intro hset'
          rw [hasCleanupSet_head] at hset'
          rw [hasCleanupSet_head]
          exact ⟨hset', hc0⟩
        · refine ⟨hrq.1, ?_, ?_⟩
          · intro hset
            rw [hasCleanupSet_ne_head m p rest q (fun h => hq h.symm)] at hset
            exact hrq.2.1 hset
          · intro hset'
            rw [hasCleanupSet_ne_head m p _ q (fun h => hq h.symm)] at hset'
            obtain ⟨hrest, hc0⟩ := hrq.2.2 hset'
            rw [hasCleanupSet_ne_head m p rest q (fun h => hq h.symm)]
            exact ⟨hrest, hc0⟩
      · simpa [keysOf] using List.Sublist.cons₂ m (by simpa [keysOf] using ihs)

theorem cleanCount_PRCP (m : String) (p : Portal) :
    cleanCount m (PortalReleaseCachedPlan p).2 = 0 := by
  unfold PortalReleaseCachedPlan
  cases p.cplan <;> simp [cleanCount]

theorem portalDropBody_err_events (b : Bool) (n : String) (p : Portal) (e : PGError)
    (h : (portalDropBody b n p).2 = some e) : (portalDropBody b n p).1 = [] := by
  unfold portalDropBody at h ⊢
  by_cases hc : p.portalPinned = true ∨ p.status = .PORTAL_ACTIVE
  · rw [if_pos hc]
  · rw [if_neg hc] at h
    exact absurd h (by simp)

theorem markDoneStep_atCleanOK (n : String) :
    AtCleanOK n (fun p => (some (MarkPortalDone n p).1, (MarkPortalDone n p).2, none)) := by
  intro p
  unfold MarkPortalDone
  dsimp only
  refine ⟨cleanCount_fireCleanup_le n _, ?_, ?_, ?_⟩
  · intro hcl
    exact cleanCount_fireCleanup_of_false n _ (by simpa using hcl)
  · intro p' hp' hpc
    exfalso
    injection hp' with hp'
    rw [← hp', fireCleanup_fst_cleanup] at hpc
    exact absurd hpc (by simp)
  · intro m hm
    exact cleanCount_fireCleanup_ne n m _ hm

theorem markFailedStep_atCleanOK (n : String) :
    AtCleanOK n (fun p => (some (MarkPortalFailed n p).1, (MarkPortalFailed n p).2, none)) := by
  intro p
  unfold MarkPortalFailed
  dsimp only
  refine ⟨cleanCount_fireCleanup_le n _, ?_, ?_, ?_⟩
  · intro hcl
    exact cleanCount_fireCleanup_of_false n _ (by simpa using hcl)
  · intro p' hp' hpc
    exfalso
    injection hp' with hp'
    rw [← hp', fireCleanup_fst_cleanup] at hpc
    exact absurd hpc (by simp)
  · intro m hm
    exact cleanCount_fireCleanup_ne n m _ hm

theorem cleanCount_ite_cancel (m n : String) (c : Prop) [Decidable c] :
    cleanCount m (if c then [PEvent.cancelUnfinishedSet n] else []) = 0 := by
  rw [cleanCount_ite_nil]
  simp [cleanCount]

theorem cleanCount_ite_warn (m n : String) (c : Prop) [Decidable c] :
    cleanCount m (if c then [PEvent.warnSkippedCleanup n] else []) = 0 := by
  rw [cleanCount_ite_nil]
  simp [cleanCount]

theorem cleanCount_heapChildren (m n : String) :
    cleanCount m [PEvent.heapChildrenDeleted n] = 0 := by
  simp [cleanCount]

theorem dropStep_atCleanOK (b : Bool) (n : String) : AtCleanOK n (dropStep b n) := by
  intro p
  obtain ⟨hd1, hd2, hd3⟩ := portalDropBody_cleanEv b n p
  unfold dropStep
  rcases hpd : portalDropBody b n p with ⟨ev, err⟩
  rw [hpd] at hd1 hd2 hd3
  dsimp only at hd1 hd2 hd3
  cases err with
  | some e =>
    have hev : ev = [] := by
      have := portalDropBody_err_events b n p e (by rw [hpd])
      rwa [hpd] at this
    dsimp only
    refine ⟨hd1, hd2, ?_, hd3⟩
    intro p' hp' hpc
    injection hp' with hp'
    subst hp'
    exact ⟨hpc, by rw [hev]; rfl⟩
  | none =>
    dsimp only
    refine ⟨hd1, hd2, ?_, hd3⟩
    intro p' hp' _
    exact absurd hp' (by simp)

theorem atSubCommitBody_entryCleanOK (my parent pOwner : Nat) :
    EntryCleanOK (atSubCommitBody my parent pOwner) := by
  intro n p
  have hev : ∀ m, cleanCount m (atSubCommitBody my parent pOwner n p).2.1 = 0 := by
    intro m
    unfold atSubCommitBody
    dsimp only
    by_cases h1 : p.createSubid = my
    · rw [if_pos h1]
      dsimp only
      cases p.resowner <;> simp [cleanCount]
    · rw [if_neg h1]
      dsimp only
      simp [cleanCount]
  have hcl : ∀ p', (atSubCommitBody my parent pOwner n p).1 = some p' →
      p'.cleanup = p.cleanup := by
    intro p' hp'
    unfold atSubCommitBody at hp'
    dsimp only at hp'
    split_ifs at hp' <;> (injection hp' with hp'; subst hp'; simp)
  refine ⟨by rw [hev n]; omega, fun _ => hev n, ?_, fun m _ => hev m⟩
  intro p' hp' hpc
  exact ⟨by rw [← hcl p' hp']; exact hpc, hev n⟩

theorem atAbortBody_entryCleanOK : EntryCleanOK atAbortBody := by
  intro n p
  unfold atAbortBody MarkPortalFailed
  dsimp only
  by_cases hst : p.status = .PORTAL_ACTIVE
  · rw [if_pos hst]
    have hfc : (fireCleanup n { p with status := PortalStatus.PORTAL_FAILED }).1.cleanup = false :=
      fireCleanup_fst_cleanup _ _
    by_cases hcs : (fireCleanup n { p with status := PortalStatus.PORTAL_FAILED }).1.createSubid =
        InvalidSubTransactionId
    · rw [if_pos hcs]
      dsimp only
      refine ⟨?_, ?_, ?_, ?_⟩
      · rw [cleanCount_append, cleanCount_ite_cancel]
        have := cleanCount_fireCleanup_le n { p with status := PortalStatus.PORTAL_FAILED }
        omega
      · intro hpcl
        rw [cleanCount_append, cleanCount_ite_cancel,
          cleanCount_fireCleanup_of_false n _ (by simpa using hpcl)]
      · intro p' hp' hpc
        exfalso
        injection hp' with hp'
        rw [← hp', hfc] at hpc
        exact absurd hpc (by simp)
      · intro m hm
        rw [cleanCount_append, cleanCount_ite_cancel, cleanCount_fireCleanup_ne n m _ hm]
    · rw [if_neg hcs]
      dsimp only
      have h3 : cleanCount n (fireCleanup n
          (fireCleanup n { p with status := PortalStatus.PORTAL_FAILED }).1).2 = 0 :=
        cleanCount_fireCleanup_of_false n _ hfc
      refine ⟨?_, ?_, ?_, ?_⟩
      · rw [cleanCount_append, cleanCount_append, cleanCount_append, cleanCount_append,
          cleanCount_ite_cancel, cleanCount_PRCP, cleanCount_heapChildren, h3]
        have := cleanCount_fireCleanup_le n { p with status := PortalStatus.PORTAL_FAILED }
        omega
      · intro hpcl
        rw [cleanCount_append, cleanCount_append, cleanCount_append, cleanCount_append,
          cleanCount_ite_cancel, cleanCount_PRCP, cleanCount_heapChildren, h3,
          cleanCount_fireCleanup_of_false n _ (by simpa using hpcl)]
      · intro p' hp' hpc
        exfalso
        injection hp' with hp'
        rw [← hp'] at hpc
        have : (PortalReleaseCachedPlan (fireCleanup n
            (fireCleanup n { p with status := PortalStatus.PORTAL_FAILED }).1).1).1.cleanup =
            false := by
          rw [PortalReleaseCachedPlan_fst_cleanup, fireCleanup_fst_cleanup]
        dsimp only at hpc
        rw [this] at hpc
        exact absurd hpc (by simp)
      · intro m hm
        rw [cleanCount_append, cleanCount_append, cleanCount_append, cleanCount_append,
          cleanCount_ite_cancel, cleanCount_PRCP, cleanCount_heapChildren,
          cleanCount_fireCleanup_ne n m _ hm, cleanCount_fireCleanup_ne n m _ hm]
  · rw [if_neg hst]
    dsimp only
    by_cases hcs : p.createSubid = InvalidSubTransactionId
    · rw [if_pos hcs]
      dsimp only
      refine ⟨?_, ?_, ?_, ?_⟩
      · rw [List.nil_append, cleanCount_ite_cancel]
        omega
      · intro _
        rw [List.nil_append, cleanCount_ite_cancel]
      · intro p' hp' hpc
        injection hp' with hp'
        refine ⟨by rw [hp']; exact hpc, ?_⟩
        rw [List.nil_append, cleanCount_ite_cancel]
      · intro m _
        rw [List.nil_append, cleanCount_ite_cancel]
    · rw [if_neg hcs]
      dsimp only
      refine ⟨?_, ?_, ?_, ?_⟩
      · rw [List.nil_append, cleanCount_append, cleanCount_append, cleanCount_append,
          cleanCount_ite_cancel, cleanCount_PRCP, cleanCount_heapChildren]
        have := cleanCount_fireCleanup_le n p
        omega
      · intro hpcl
        rw [List.nil_append, cleanCount_append, cleanCount_append, cleanCount_append,
          cleanCount_ite_cancel, cleanCount_PRCP, cleanCount_heapChildren,
          cleanCount_fireCleanup_of_false n _ hpcl]
      · intro p' hp' hpc
        exfalso
        injection hp' with hp'
        rw [← hp'] at hpc
        have : (PortalReleaseCachedPlan (fireCleanup n p).1).1.cleanup = false := by
          rw [PortalReleaseCachedPlan_fst_cleanup, fireCleanup_fst_cleanup]
        dsimp only at hpc
        rw [this] at hpc
        exact absurd hpc (by simp)
      · intro m hm
        rw [List.nil_append, cleanCount_append, cleanCount_append, cleanCount_append,
          cleanCount_ite_cancel, cleanCount_PRCP, cleanCount_heapChildren,
          cleanCount_fireCleanup_ne n m _ hm]

theorem atSubAbortBody_entryCleanOK (my parent mOwner pOwner : Nat) :
    EntryCleanOK (atSubAbortBody my parent mOwner pOwner) := by
  intro n p
  unfold atSubAbortBody MarkPortalFailed
  dsimp only
  by_cases hne : p.createSubid ≠ my
  · rw [if_pos hne]
    by_cases hact : p.activeSubid = my
    · rw [if_pos hact]
      dsimp only
      by_cases hs2 : p.status = PortalStatus.PORTAL_ACTIVE
      · rw [if_pos hs2]
        have t1 := cleanCount_fireCleanup_le n
          { p with activeSubid := parent, status := PortalStatus.PORTAL_FAILED }
        have t3 := fireCleanup_fst_cleanup n
          { p with activeSubid := parent, status := PortalStatus.PORTAL_FAILED }
        by_cases hs3 : (fireCleanup n
            { p with activeSubid := parent,
                     status := PortalStatus.PORTAL_FAILED }).1.status =
            PortalStatus.PORTAL_FAILED
        · rw [if_pos hs3]
          cases hro : (fireCleanup n
              { p with activeSubid := parent,
                       status := PortalStatus.PORTAL_FAILED }).1.resowner with
          | some o =>
            simp only [hro]
            refine ⟨?_, fun h => ?_, fun p' hp' hpc => ?_, fun m hm => ?_⟩
            · simpa [cleanCount_append, cleanCount] using t1
            · simpa [cleanCount_append, cleanCount] using
                cleanCount_fireCleanup_of_false n
                  { p with activeSubid := parent, status := PortalStatus.PORTAL_FAILED } h
            · exfalso
              injection hp' with hp'
              rw [← hp'] at hpc
              dsimp only at hpc
              rw [t3] at hpc
              exact absurd hpc (by simp)
            · simpa [cleanCount_append, cleanCount] using
                cleanCount_fireCleanup_ne n m _ hm
          | none =>
            simp only [hro]
            refine ⟨?_, fun h => ?_, fun p' hp' hpc => ?_, fun m hm => ?_⟩
            · simpa [cleanCount_append, cleanCount] using t1
            · simpa [cleanCount_append, cleanCount] using
                cleanCount_fireCleanup_of_false n
                  { p with activeSubid := parent, status := PortalStatus.PORTAL_FAILED } h
            · exfalso
              injection hp' with hp'
              rw [← hp'] at hpc
              rw [t3] at hpc
              exact absurd hpc (by simp)
            · simpa [cleanCount_append, cleanCount] using
                cleanCount_fireCleanup_ne n m _ hm
        · rw [if_neg hs3]
          refine ⟨?_, fun h => ?_, fun p' hp' hpc => ?_, fun m hm => ?_⟩
          · simpa [cleanCount_append, cleanCount] using t1
          · simpa [cleanCount_append, cleanCount] using
              cleanCount_fireCleanup_of_false n
                  { p with activeSubid := parent, status := PortalStatus.PORTAL_FAILED } h
          · exfalso
            injection hp' with hp'
            rw [← hp'] at hpc
            rw [t3] at hpc
            exact absurd hpc (by simp)
          · simpa [cleanCount_append, cleanCount] using
              cleanCount_fireCleanup_ne n m _ hm
      · rw [if_neg hs2]
        dsimp only
        by_cases hs3 : ({ p with activeSubid := parent } : Portal).status =
            PortalStatus.PORTAL_FAILED
        · rw [if_pos hs3]
          cases hro : ({ p with activeSubid := parent } : Portal).resowner with
          | some o =>
            simp only [hro]
            refine ⟨?_, fun _ => ?_, fun p' hp' hpc => ?_, fun m hm => ?_⟩
            · simp [cleanCount_append, cleanCount]
            · simp [cleanCount_append, cleanCount]
            · injection hp' with hp'
              rw [← hp'] at hpc
              dsimp only at hpc
              exact ⟨hpc, by simp [cleanCount_append, cleanCount]⟩
            · simp [cleanCount_append, cleanCount]
          | none =>
            simp only [hro]
            refine ⟨?_, fun _ => ?_, fun p' hp' hpc => ?_, fun m hm => ?_⟩
            · simp [cleanCount_append, cleanCount]
            · simp [cleanCount_append, cleanCount]
            · injection hp' with hp'
              rw [← hp'] at hpc
              dsimp only at hpc
              exact ⟨hpc, by simp [cleanCount_append, cleanCount]⟩
            · simp [cleanCount_append, cleanCount]
        · rw [if_neg hs3]
          refine ⟨?_, fun _ => ?_, fun p' hp' hpc => ?_, fun m hm => ?_⟩
          · simp [cleanCount_append, cleanCount]
          · simp [cleanCount_append, cleanCount]
          · injection hp' with hp'
            rw [← hp'] at hpc
            dsimp only at hpc
            exact ⟨hpc, by simp [cleanCount_append, cleanCount]⟩
          · simp [cleanCount_append, cleanCount]
    · rw [if_neg hact]
      refine ⟨by simp [cleanCount], fun _ => rfl, fun p' hp' hpc => ?_, fun m _ => rfl⟩
      injection hp' with hp'
      exact ⟨by rw [hp']; exact hpc, rfl⟩
  · rw [if_neg hne]
    dsimp only
    by_cases hs2 : p.status = PortalStatus.PORTAL_ACTIVE
    · rw [if_pos hs2]
      have hfc := fireCleanup_fst_cleanup n { p with status := PortalStatus.PORTAL_FAILED }
      have h3 : cleanCount n (fireCleanup n
          (fireCleanup n { p with status := PortalStatus.PORTAL_FAILED }).1).2 = 0 :=
        cleanCount_fireCleanup_of_false n _ hfc
      refine ⟨?_, fun h => ?_, fun p' hp' hpc => ?_, fun m hm => ?_⟩
      · rw [cleanCount_append, cleanCount_append, cleanCount_append,
          cleanCount_PRCP, cleanCount_heapChildren, h3]
        have := cleanCount_fireCleanup_le n { p with status := PortalStatus.PORTAL_FAILED }
        omega
      · rw [cleanCount_append, cleanCount_append, cleanCount_append,
          cleanCount_PRCP, cleanCount_heapChildren, h3,
          cleanCount_fireCleanup_of_false n { p with status := PortalStatus.PORTAL_FAILED } h]
      · exfalso
        injection hp' with hp'
        rw [← hp'] at hpc
        dsimp only at hpc
        rw [PortalReleaseCachedPlan_fst_cleanup, fireCleanup_fst_cleanup] at hpc
        exact absurd hpc (by simp)
      · rw [cleanCount_append, cleanCount_append, cleanCount_append,
          cleanCount_PRCP, cleanCount_heapChildren,
          cleanCount_fireCleanup_ne n m _ hm, cleanCount_fireCleanup_ne n m _ hm]
    · rw [if_neg hs2]
      dsimp only
      refine ⟨?_, fun h => ?_, fun p' hp' hpc => ?_, fun m hm => ?_⟩
      · rw [List.nil_append, cleanCount_append, cleanCount_append,
          cleanCount_PRCP, cleanCount_heapChildren]
        have := cleanCount_fireCleanup_le n p
        omega
      · rw [List.nil_append, cleanCount_append, cleanCount_append,
          cleanCount_PRCP, cleanCount_heapChildren,
          cleanCount_fireCleanup_of_false n p h]
      · exfalso
        injection hp' with hp'
        rw [← hp'] at hpc
        dsimp only at hpc
        rw [PortalReleaseCachedPlan_fst_cleanup, fireCleanup_fst_cleanup] at hpc
        exact absurd hpc (by simp)
      · rw [List.nil_append, cleanCount_append, cleanCount_append,
          cleanCount_PRCP, cleanCount_heapChildren,
          cleanCount_fireCleanup_ne n m p hm]

theorem atCleanupBody_entryCleanOK : EntryCleanOK atCleanupBody := by
  intro n p
  unfold atCleanupBody
  dsimp only
  by_cases hcs : p.createSubid = InvalidSubTransactionId
  · rw [if_pos hcs]
    refine ⟨by simp [cleanCount], fun _ => rfl, fun p' hp' hpc => ?_, fun m _ => rfl⟩
    injection hp' with hp'
    exact ⟨by rw [hp']; exact hpc, rfl⟩
  · rw [if_neg hcs]
    by_cases hpin : p.portalPinned = true
    · rw [if_pos hpin]
      by_cases hcl : ({ p with portalPinned := false } : Portal).cleanup = true
      · rw [if_pos hcl]
        obtain ⟨hd1, hd2, hd3⟩ := portalDropBody_cleanEv false n
          { p with portalPinned := false, cleanup := false }
        have hz : cleanCount n (portalDropBody false n
            { p with portalPinned := false, cleanup := false }).1 = 0 := hd2 rfl
        rcases hpd : portalDropBody false n
            { p with portalPinned := false, cleanup := false } with ⟨ev, err⟩
        rw [hpd] at hd1 hd3 hz
        dsimp only at hd1 hd3 hz
        simp only [hpd]
        cases err with
        | some e =>
          refine ⟨?_, fun _ => ?_, fun p' hp' hpc => ?_, fun m hm => ?_⟩
          · rw [cleanCount_append, hz]
            simp [cleanCount]
          · rw [cleanCount_append, hz]
            simp [cleanCount]
          · exfalso
            injection hp' with hp'
            rw [← hp'] at hpc
            dsimp only at hpc
            exact absurd hpc (by simp)
          · rw [cleanCount_append, hd3 m hm]
            simp [cleanCount]
        | none =>
          refine ⟨?_, fun _ => ?_, fun p' hp' hpc => ?_, fun m hm => ?_⟩
          · rw [cleanCount_append, hz]
            simp [cleanCount]
          · rw [cleanCount_append, hz]
            simp [cleanCount]
          · exact absurd hp' (by simp)
          · rw [cleanCount_append, hd3 m hm]
            simp [cleanCount]
      · rw [if_neg hcl]
        have hclf : ({ p with portalPinned := false } : Portal).cleanup = false := by
          cases h : ({ p with portalPinned := false } : Portal).cleanup
          · rfl
          · exact absurd h hcl
        obtain ⟨hd1, hd2, hd3⟩ := portalDropBody_cleanEv false n
          { p with portalPinned := false }
        have hz : cleanCount n (portalDropBody false n
            { p with portalPinned := false }).1 = 0 := hd2 hclf
        rcases hpd : portalDropBody false n
            { p with portalPinned := false } with ⟨ev, err⟩
        rw [hpd] at hd1 hd3 hz
        dsimp only at hd1 hd3 hz
        simp only [hpd]
        cases err with
        | some e =>
          refine ⟨?_, fun _ => ?_, fun p' hp' hpc => ?_, fun m hm => ?_⟩
          · rw [cleanCount_append, hz]
            simp [cleanCount]
          · rw [cleanCount_append, hz]
            simp [cleanCount]
          · exfalso
            injection hp' with hp'
            rw [← hp'] at hpc
            rw [hclf] at hpc
            exact absurd hpc (by simp)
          · rw [cleanCount_append, hd3 m hm]
            simp [cleanCount]
        | none =>
          refine ⟨?_, fun _ => ?_, fun p' hp' hpc => ?_, fun m hm => ?_⟩
          · rw [cleanCount_append, hz]
            simp [cleanCount]
          · rw [cleanCount_append, hz]
            simp [cleanCount]
          · exact absurd hp' (by simp)
          · rw [cleanCount_append, hd3 m hm]
            simp [cleanCount]
    · rw [if_neg hpin]
      by_cases hcl : p.cleanup = true
      · rw [if_pos hcl]
        obtain ⟨hd1, hd2, hd3⟩ := portalDropBody_cleanEv false n { p with cleanup := false }
        have hz : cleanCount n (portalDropBody false n { p with cleanup := false }).1 = 0 :=
          hd2 rfl
        rcases hpd : portalDropBody false n { p with cleanup := false } with ⟨ev, err⟩
        rw [hpd] at hd1 hd3 hz
        dsimp only at hd1 hd3 hz
        simp only [hpd]
        cases err with
        | some e =>
          refine ⟨?_, fun _ => ?_, fun p' hp' hpc => ?_, fun m hm => ?_⟩
          · rw [cleanCount_append, hz]
            simp [cleanCount]
          · rw [cleanCount_append, hz]
            simp [cleanCount]
          · exfalso
            injection hp' with hp'
            rw [← hp'] at hpc
            dsimp only at hpc
            exact absurd hpc (by simp)
          · rw [cleanCount_append, hd3 m hm]
            simp [cleanCount]
        | none =>
          refine ⟨?_, fun _ => ?_, fun p' hp' hpc => ?_, fun m hm => ?_⟩
          · rw [cleanCount_append, hz]
            simp [cleanCount]
          · rw [cleanCount_append, hz]
            simp [cleanCount]
          · exact absurd hp' (by simp)
          · rw [cleanCount_append, hd3 m hm]
            simp [cleanCount]
      · rw [if_neg hcl]
        have hclf : p.cleanup = false := by
          cases h : p.cleanup
          · rfl
          · exact absurd h hcl
        obtain ⟨hd1, hd2, hd3⟩ := portalDropBody_cleanEv false n p
        have hz : cleanCount n (portalDropBody false n p).1 = 0 := hd2 hclf
        rcases hpd : portalDropBody false n p with ⟨ev, err⟩
        rw [hpd] at hd1 hd3 hz
        dsimp only at hd1 hd3 hz
        simp only [hpd]
        cases err with
        | some e =>
          refine ⟨?_, fun _ => ?_, fun p' hp' hpc => ?_, fun m hm => ?_⟩
          · rw [cleanCount_append, hz]
            simp [cleanCount]
          · rw [cleanCount_append, hz]
            simp [cleanCount]
          · exfalso
            injection hp' with hp'
            rw [← hp'] at hpc
            rw [hclf] at hpc
            exact absurd hpc (by simp)
          · rw [cleanCount_append, hd3 m hm]
            simp [cleanCount]
        | none =>
          refine ⟨?_, fun _ => ?_, fun p' hp' hpc => ?_, fun m hm => ?_⟩
          · rw [cleanCount_append, hz]
            simp [cleanCount]
          · rw [cleanCount_append, hz]
            simp [cleanCount]
          · exact absurd hp' (by simp)
          · rw [cleanCount_append, hd3 m hm]
            simp [cleanCount]

theorem atSubCleanupBody_entryCleanOK (my : Nat) : EntryCleanOK (atSubCleanupBody my) := by
  intro n p
  unfold atSubCleanupBody
  dsimp only
  by_cases hcs : p.createSubid ≠ my
  · rw [if_pos hcs]
    refine ⟨by simp [cleanCount], fun _ => rfl, fun p' hp' hpc => ?_, fun m _ => rfl⟩
    injection hp' with hp'
    exact ⟨by rw [hp']; exact hpc, rfl⟩
  · rw [if_neg hcs]
    by_cases hpin : p.portalPinned = true
    · rw [if_pos hpin]
      by_cases hcl : ({ p with portalPinned := false } : Portal).cleanup = true
      · rw [if_pos hcl]
        obtain ⟨hd1, hd2, hd3⟩ := portalDropBody_cleanEv false n
          { p with portalPinned := false, cleanup := false }
        have hz : cleanCount n (portalDropBody false n
            { p with portalPinned := false, cleanup := false }).1 = 0 := hd2 rfl
        rcases hpd : portalDropBody false n
            { p with portalPinned := false, cleanup := false } with ⟨ev, err⟩
        rw [hpd] at hd1 hd3 hz
        dsimp only at hd1 hd3 hz
        simp only [hpd]
        cases err with
        | some e =>
          refine ⟨?_, fun _ => ?_, fun p' hp' hpc => ?_, fun m hm => ?_⟩
          · rw [cleanCount_append, hz]
            simp [cleanCount]
          · rw [cleanCount_append, hz]
            simp [cleanCount]
          · exfalso
            injection hp' with hp'
            rw [← hp'] at hpc
            dsimp only at hpc
            exact absurd hpc (by simp)
          · rw [cleanCount_append, hd3 m hm]
            simp [cleanCount]
        | none =>
          refine ⟨?_, fun _ => ?_, fun p' hp' hpc => ?_, fun m hm => ?_⟩
          · rw [cleanCount_append, hz]
            simp [cleanCount]
          · rw [cleanCount_append, hz]
            simp [cleanCount]
          · exact absurd hp' (by simp)
          · rw [cleanCount_append, hd3 m hm]
            simp [cleanCount]
      · rw [if_neg hcl]
        have hclf : ({ p with portalPinned := false } : Portal).cleanup = false := by
          cases h : ({ p with portalPinned := false } : Portal).cleanup
          · rfl
          · exact absurd h hcl
        obtain ⟨hd1, hd2, hd3⟩ := portalDropBody_cleanEv false n
          { p with portalPinned := false }
        have hz : cleanCount n (portalDropBody false n
            { p with portalPinned := false }).1 = 0 := hd2 hclf
        rcases hpd : portalDropBody false n
            { p with portalPinned := false } with ⟨ev, err⟩
        rw [hpd] at hd1 hd3 hz
        dsimp only at hd1 hd3 hz
        simp only [hpd]
        cases err with
        | some e =>
          refine ⟨?_, fun _ => ?_, fun p' hp' hpc => ?_, fun m hm => ?_⟩
          · rw [cleanCount_append, hz]
            simp [cleanCount]
          · rw [cleanCount_append, hz]
            simp [cleanCount]
          · exfalso
            injection hp' with hp'
            rw [← hp'] at hpc
            rw [hclf] at hpc
            exact absurd hpc (by simp)
          · rw [cleanCount_append, hd3 m hm]
            simp [cleanCount]
        | none =>
          refine ⟨?_, fun _ => ?_, fun p' hp' hpc => ?_, fun m hm => ?_⟩
          · rw [cleanCount_append, hz]
            simp [cleanCount]
          · rw [cleanCount_append, hz]
            simp [cleanCount]
          · exact absurd hp' (by simp)
          · rw [cleanCount_append, hd3 m hm]
            simp [cleanCount]
    · rw [if_neg hpin]
      by_cases hcl : p.cleanup = true
      · rw [if_pos hcl]
        obtain ⟨hd1, hd2, hd3⟩ := portalDropBody_cleanEv false n { p with cleanup := false }
        have hz : cleanCount n (portalDropBody false n { p with cleanup := false }).1 = 0 :=
          hd2 rfl
        rcases hpd : portalDropBody false n { p with cleanup := false } with ⟨ev, err⟩
        rw [hpd] at hd1 hd3 hz
        dsimp only at hd1 hd3 hz
        simp only [hpd]
        cases err with
        | some e =>
          refine ⟨?_, fun _ => ?_, fun p' hp' hpc => ?_, fun m hm => ?_⟩
          · rw [cleanCount_append, hz]
            simp [cleanCount]
          · rw [cleanCount_append, hz]
            simp [cleanCount]
          · exfalso
            injection hp' with hp'
            rw [← hp'] at hpc
            dsimp only at hpc
            exact absurd hpc (by simp)
          · rw [cleanCount_append, hd3 m hm]
            simp [cleanCount]
        | none =>
          refine ⟨?_, fun _ => ?_, fun p' hp' hpc => ?_, fun m hm => ?_⟩
          · rw [cleanCount_append, hz]
            simp [cleanCount]
          · rw [cleanCount_append, hz]
            simp [cleanCount]
          · exact absurd hp' (by simp)
          · rw [cleanCount_append, hd3 m hm]
            simp [cleanCount]
      · rw [if_neg hcl]
        have hclf : p.cleanup = false := by
          cases h : p.cleanup
          · rfl
          · exact absurd h hcl
        obtain ⟨hd1, hd2, hd3⟩ := portalDropBody_cleanEv false n p
        have hz : cleanCount n (portalDropBody false n p).1 = 0 := hd2 hclf
        rcases hpd : portalDropBody false n p with ⟨ev, err⟩
        rw [hpd] at hd1 hd3 hz
        dsimp only at hd1 hd3 hz
        simp only [hpd]
        cases err with
        | some e =>
          refine ⟨?_, fun _ => ?_, fun p' hp' hpc => ?_, fun m hm => ?_⟩
          · rw [cleanCount_append, hz]
            simp [cleanCount]
          · rw [cleanCount_append, hz]
            simp [cleanCount]
          · exfalso
            injection hp' with hp'
            rw [← hp'] at hpc
            rw [hclf] at hpc
            exact absurd hpc (by simp)
          · rw [cleanCount_append, hd3 m hm]
            simp [cleanCount]
        | none =>
          refine ⟨?_, fun _ => ?_, fun p' hp' hpc => ?_, fun m hm => ?_⟩
          · rw [cleanCount_append, hz]
            simp [cleanCount]
          · rw [cleanCount_append, hz]
            simp [cleanCount]
          · exact absurd hp' (by simp)
          · rw [cleanCount_append, hd3 m hm]
            simp [cleanCount]


theorem preCommitPass_cleanOK (isPrepare : Bool) :
    ∀ t : PortalTable, (keysOf t).Nodup →
      CleanOK t (preCommitPass isPrepare t).table (preCommitPass isPrepare t).events ∧
      List.Sublist (keysOf (preCommitPass isPrepare t).table) (keysOf t) := by
  intro t
  induction t with
  | nil =>
    intro _
    exact ⟨CleanOK_refl [], List.Sublist.refl []⟩
  | cons e rest ih =>
    obtain ⟨m, p⟩ := e
    intro hnd
    have hnd' : m ∉ keysOf rest ∧ (keysOf rest).Nodup := by
      have : (m :: keysOf rest).Nodup := by simpa [keysOf] using hnd
      exact List.nodup_cons.mp this
    obtain ⟨hmrest, hndrest⟩ := hnd'
    rw [preCommitPass.eq_def]
    dsimp only
    by_cases h1 : p.portalPinned = true
    · rw [if_pos h1]
      dsimp only
      exact ⟨CleanOK_refl _, List.Sublist.refl _⟩
    · rw [if_neg h1]
      by_cases h2 : p.status = PortalStatus.PORTAL_ACTIVE
      · rw [if_pos h2]
        dsimp only
        obtain ⟨ihc, ihs⟩ := ih hndrest
        constructor
        · intro q
          have hrq := ihc q
          by_cases hq : q = m
          · subst hq
            have hc0 : cleanCount q (preCommitPass isPrepare rest).events = 0 :=
              hrq.2.1 (hasCleanupSet_eq_false rest q hmrest)
            refine ⟨by omega, fun _ => hc0, ?_⟩
            intro hset'
            rw [hasCleanupSet_head] at hset'
            dsimp only at hset'
            rw [hasCleanupSet_head]
            exact ⟨hset', hc0⟩
          · refine ⟨hrq.1, ?_, ?_⟩
            · intro hset
              rw [hasCleanupSet_ne_head m p rest q (fun h => hq h.symm)] at hset
              exact hrq.2.1 hset
            · intro hset'
              rw [hasCleanupSet_ne_head m _ _ q (fun h => hq h.symm)] at hset'
              obtain ⟨hrest, hc0⟩ := hrq.2.2 hset'
              rw [hasCleanupSet_ne_head m p rest q (fun h => hq h.symm)]
              exact ⟨hrest, hc0⟩
        · simpa [keysOf] using List.Sublist.cons₂ m (by simpa [keysOf] using ihs)
      · rw [if_neg h2]
        by_cases h3 : p.cursorOptions &&& CURSOR_OPT_HOLD ≠ 0 ∧
            p.createSubid ≠ InvalidSubTransactionId ∧ p.status = PortalStatus.PORTAL_READY
        · rw [if_pos h3]
          by_cases h4 : isPrepare = true
          · rw [if_pos h4]
            dsimp only
            exact ⟨CleanOK_refl _, List.Sublist.refl _⟩
          · rw [if_neg h4]
            dsimp only
            have hev : ∀ q', cleanCount q' (PEvent.persistCalled m ::
                (PortalReleaseCachedPlan (PortalCreateHoldStore p)).2) = 0 := by
              intro q'
              rw [cleanCount_cons, cleanCount_PRCP]
              simp
            have hp3cl : ({ (PortalReleaseCachedPlan (PortalCreateHoldStore p)).1 with
                resowner := none
                createSubid := InvalidSubTransactionId
                activeSubid := InvalidSubTransactionId } : Portal).cleanup = p.cleanup := by
              dsimp only
              rw [PortalReleaseCachedPlan_fst_cleanup]
              rfl
            constructor
            · intro q
              by_cases hq : q = m
              · subst hq
                refine ⟨by rw [hev]; omega, fun _ => hev q, ?_⟩
                intro hset'
                rw [hasCleanupSet_head] at hset'
                rw [hp3cl] at hset'
                rw [hasCleanupSet_head]
                exact ⟨hset', hev q⟩
              · refine ⟨by rw [hev]; omega, fun _ => hev q, ?_⟩
                intro hset'
                rw [hasCleanupSet_ne_head m _ _ q (fun h => hq h.symm)] at hset'
                rw [hasCleanupSet_ne_head m p rest q (fun h => hq h.symm)]
                exact ⟨hset', hev q⟩
            · simpa [keysOf] using List.Sublist.refl (m :: List.map Prod.fst rest)
        · rw [if_neg h3]
          by_cases h5 : p.createSubid = InvalidSubTransactionId
          · rw [if_pos h5]
            dsimp only
            obtain ⟨ihc, ihs⟩ := ih hndrest
            constructor
            · intro q
              have hrq := ihc q
              by_cases hq : q = m
              · subst hq
                have hc0 : cleanCount q (preCommitPass isPrepare rest).events = 0 :=
                  hrq.2.1 (hasCleanupSet_eq_false rest q hmrest)
                refine ⟨by omega, fun _ => hc0, ?_⟩
                intro hset'
                rw [hasCleanupSet_head] at hset'
                rw [hasCleanupSet_head]
                exact ⟨hset', hc0⟩
              · refine ⟨hrq.1, ?_, ?_⟩
                · intro hset
                  rw [hasCleanupSet_ne_head m p rest q (fun h => hq h.symm)] at hset
                  exact hrq.2.1 hset
                · intro hset'
                  rw [hasCleanupSet_ne_head m p _ q (fun h => hq h.symm)] at hset'
                  obtain ⟨hrest, hc0⟩ := hrq.2.2 hset'
                  rw [hasCleanupSet_ne_head m p rest q (fun h => hq h.symm)]
                  exact ⟨hrest, hc0⟩
            · simpa [keysOf] using List.Sublist.cons₂ m (by simpa [keysOf] using ihs)
          · rw [if_neg h5]
            obtain ⟨hd1, hd2, hd3⟩ := portalDropBody_cleanEv true m p
            rcases hpd : portalDropBody true m p with ⟨ev, err⟩
            rw [hpd] at hd1 hd2 hd3
            dsimp only at hd1 hd2 hd3
            cases err with
            | some e =>
              have hev0 : ev = [] := by
                have := portalDropBody_err_events true m p e (by rw [hpd])
                rwa [hpd] at this
              subst hev0
              dsimp only
              exact ⟨CleanOK_refl _, List.Sublist.refl _⟩
            | none =>
              dsimp only
              constructor
              · intro q
                by_cases hq : q = m
                · subst hq
                  refine ⟨hd1, ?_, ?_⟩
                  · intro hset
                    rw [hasCleanupSet_head] at hset
                    exact hd2 hset
                  · intro hset'
                    rw [hasCleanupSet_eq_false rest q hmrest] at hset'
                    exact absurd hset' (by simp)
                · have hz := hd3 q hq
                  refine ⟨by rw [hz]; omega, fun _ => hz, ?_⟩
                  intro hset'
                  rw [hasCleanupSet_ne_head m p rest q (fun h => hq h.symm)]
                  exact ⟨hset', hz⟩
              · simpa [keysOf] using List.sublist_cons_self m (List.map Prod.fst rest)


theorem preCommitLoop_cleanOK (isPrepare : Bool) :
    ∀ (fuel : Nat) (t : PortalTable) (changed : Bool), (keysOf t).Nodup →
      CleanOK t (preCommitLoop isPrepare fuel t changed).table
        (preCommitLoop isPrepare fuel t changed).events ∧
      List.Sublist (keysOf (preCommitLoop isPrepare fuel t changed).table) (keysOf t) := by
  intro fuel
  induction fuel with
  | zero =>
    intro t changed _
    rw [preCommitLoop]
    exact ⟨CleanOK_refl t, List.Sublist.refl _⟩
  | succ f ih =>
    intro t changed hnd
    obtain ⟨hp, hk⟩ := preCommitPass_cleanOK isPrepare t hnd
    cases herr : (preCommitPass isPrepare t).err with
    | some e =>
      rw [preCommitLoop_err isPrepare (f + 1) t changed e (by omega) herr]
      exact ⟨hp, hk⟩
    | none =>
      cases hres : (preCommitPass isPrepare t).restart with
      | false =>
        rw [preCommitLoop_done isPrepare (f + 1) t changed (by omega) herr hres]
        exact ⟨hp, hk⟩
      | true =>
        rw [preCommitLoop_restart isPrepare f t changed herr hres]
        have hnd2 : (keysOf (preCommitPass isPrepare t).table).Nodup :=
          List.Nodup.sublist hk hnd
        obtain ⟨hl, hlk⟩ := ih (preCommitPass isPrepare t).table
          (changed || (preCommitPass isPrepare t).changed) hnd2
        exact ⟨CleanOK_trans hp hl, hlk.trans hk⟩

theorem runPOp_cleanOK (op : POp) (t : PortalTable) (hnd : (keysOf t).Nodup) :
    CleanOK t (runPOp op t).1 (runPOp op t).2.1 ∧
    List.Sublist (keysOf (runPOp op t).1) (keysOf t) := by
  cases op with
  | opMarkDone n => exact applyAt_cleanOK n _ (markDoneStep_atCleanOK n) t hnd
  | opMarkFailed n => exact applyAt_cleanOK n _ (markFailedStep_atCleanOK n) t hnd
  | opDrop n b => exact applyAt_cleanOK n _ (dropStep_atCleanOK b n) t hnd
  | opPreCommit b => exact preCommitLoop_cleanOK b _ t false hnd
  | opAtAbort => exact entrywise_cleanOK atAbortBody atAbortBody_entryCleanOK t hnd
  | opAtCleanup => exact entrywise_cleanOK atCleanupBody atCleanupBody_entryCleanOK t hnd
  | opAtSubCommit a b c => exact entrywise_cleanOK _ (atSubCommitBody_entryCleanOK a b c) t hnd
  | opAtSubAbort a b c d =>
    exact entrywise_cleanOK _ (atSubAbortBody_entryCleanOK a b c d) t hnd
  | opAtSubCleanup a => exact entrywise_cleanOK _ (atSubCleanupBody_entryCleanOK a) t hnd

theorem runPOps_cleanOK (ops : List POp) :
    ∀ t : PortalTable, (keysOf t).Nodup →
      CleanOK t (runPOps ops t).1 (runPOps ops t).2 ∧
      List.Sublist (keysOf (runPOps ops t).1) (keysOf t) := by
  induction ops with
  | nil =>
    intro t _
    exact ⟨CleanOK_refl t, List.Sublist.refl _⟩
  | cons op ops ih =>
    intro t hnd
    obtain ⟨h1, k1⟩ := runPOp_cleanOK op t hnd
    obtain ⟨h2, k2⟩ := ih (runPOp op t).1 (List.Nodup.sublist k1 hnd)
    rw [runPOps]
    dsimp only
    exact ⟨CleanOK_trans h1 h2, k2.trans k1⟩

/-- **C4.** For every portal name `n` and every sequence of registry
operations (MarkPortalDone, MarkPortalFailed, PortalDrop, PreCommit and the
transaction hooks) run on a table with distinct portal names, the cleanup
hook of `n` is invoked at most once across the whole trace; it is never
invoked when it was already cleared, and if it is still set afterwards it
was never invoked at all (each operation that fires it clears it). -/
theorem cleanup_fires_at_most_once (ops : List POp) (t : PortalTable) (n : String)
    (hnd : (keysOf t).Nodup) :
    cleanCount n (runPOps ops t).2 ≤ 1 ∧
    (hasCleanupSet t n = false → cleanCount n (runPOps ops t).2 = 0) ∧
    (hasCleanupSet (runPOps ops t).1 n = true → cleanCount n (runPOps ops t).2 = 0) := by
  obtain ⟨hc, -⟩ := runPOps_cleanOK ops t hnd
  obtain ⟨h1, h2, h3⟩ := hc n
  exact ⟨h1, h2, fun h => (h3 h).2⟩

theorem cleanup_fires_at_most_once_witness :
    (keysOf [("a", wActivePortal), ("b", wOwnedPortal)]).Nodup ∧
    (cleanCount "a"
        (runPOps [POp.opMarkDone "a", POp.opDrop "a" false, POp.opAtCleanup]
          [("a", wActivePortal), ("b", wOwnedPortal)]).2 ≤ 1 ∧
      (hasCleanupSet [("a", wActivePortal), ("b", wOwnedPortal)] "a" = false →
        cleanCount "a"
          (runPOps [POp.opMarkDone "a", POp.opDrop "a" false, POp.opAtCleanup]
            [("a", wActivePortal), ("b", wOwnedPortal)]).2 = 0) ∧
      (hasCleanupSet
          (runPOps [POp.opMarkDone "a", POp.opDrop "a" false, POp.opAtCleanup]
            [("a", wActivePortal), ("b", wOwnedPortal)]).1 "a" = true →
        cleanCount "a"
          (runPOps [POp.opMarkDone "a", POp.opDrop "a" false, POp.opAtCleanup]
            [("a", wActivePortal), ("b", wOwnedPortal)]).2 = 0)) :=
  ⟨by decide,
   cleanup_fires_at_most_once [POp.opMarkDone "a", POp.opDrop "a" false, POp.opAtCleanup]
     [("a", wActivePortal), ("b", wOwnedPortal)] "a" (by decide)⟩


end GPDB
